import Mathlib

/-!
Verification of mpv's `vf_d3d11sr` video filter
(`src/video/filter/vf_d3d11sr.c`) against its design specification.

The development shallowly embeds the filter's pure render-size policy and
its per-cycle state machine.  The C source computes the render size in
IEEE-754 single precision (`float`); this is modelled exactly: a positive
binary32 value is represented by a significand/exponent pair, and every
arithmetic step of `get_render_size` performs correct round-to-nearest-even
to a 24-bit significand, exactly as binary32 division and multiplication
do for the magnitudes arising here (all values are strictly positive and
far from overflow, underflow and subnormal range, so exponent-range
clamping never engages).  The C cast `(int)` on a positive value truncates
toward zero, i.e. takes the floor.
-/

/-- Bit length of a natural number, computed with an explicit fuel
argument so that the kernel can evaluate it. `blAux f n` is the number of
binary digits of `n`, provided `n ≤ f`. -/
def blAux : ℕ → ℕ → ℕ
  | 0, _ => 0
  | f + 1, n => if n = 0 then 0 else blAux f (n / 2) + 1

/-- Bit length of `n`: the unique `b` with `2 ^ (b - 1) ≤ n < 2 ^ b`
for `n ≥ 1`, and `0` for `n = 0`. -/
def bl (n : ℕ) : ℕ := blAux n n

/-- Integer test `den * 2 ^ e ≤ num`, with `e : ℤ`; this decides
`2 ^ e ≤ num / den` over ℚ without leaving integer arithmetic. -/
def le2 (den num : ℕ) (e : ℤ) : Bool :=
  if 0 ≤ e then decide (den * 2 ^ e.toNat ≤ num) else decide (den ≤ num * 2 ^ (-e).toNat)

/-- Binary exponent of the positive rational `num / den`: the unique
`e : ℤ` with `2 ^ e ≤ num / den < 2 ^ (e + 1)` (for `num, den ≥ 1`). -/
def expo (num den : ℕ) : ℤ :=
  if le2 den num ((bl num : ℤ) - (bl den : ℤ)) then (bl num : ℤ) - (bl den : ℤ)
  else (bl num : ℤ) - (bl den : ℤ) - 1

/-- A positive binary32 value: significand `m` (24 bits after rounding)
and binary exponent `e`; the represented value is `m * 2 ^ (e - 23)`. -/
structure F32 where
  m : ℕ
  e : ℤ
deriving DecidableEq, Repr

/-- Scaled numerator used when rounding `num / den` to 24 significand
bits: the quotient `rneX / rneD` equals `(num / den) * 2 ^ (23 - expo)`,
a value in `[2^23, 2^24)`. -/
def rneX (num den : ℕ) : ℕ :=
  if 0 ≤ 23 - expo num den then num * 2 ^ (23 - expo num den).toNat else num

/-- Scaled denominator used when rounding `num / den` to 24 significand
bits. -/
def rneD (num den : ℕ) : ℕ :=
  if 0 ≤ 23 - expo num den then den else den * 2 ^ (expo num den - 23).toNat

/-- The 24-bit significand of `num / den`, rounded to nearest with ties
to even. -/
def rneM (num den : ℕ) : ℕ :=
  if rneD num den < 2 * (rneX num den % rneD num den) ∨
      (2 * (rneX num den % rneD num den) = rneD num den ∧
        (rneX num den / rneD num den) % 2 = 1)
  then rneX num den / rneD num den + 1 else rneX num den / rneD num den

/-- Round the positive rational `num / den` to the nearest binary32 value
(ties to even), the rounding every single-precision operation performs on
its exact result. -/
def rneF (num den : ℕ) : F32 := ⟨rneM num den, expo num den⟩

/-- Exact rational value of a represented binary32 number. -/
def fval (f : F32) : ℚ := (f.m : ℚ) * 2 ^ (f.e - 23)

/-- Conversion `int → float` (exact for the magnitudes used here, but
modelled as a rounding like the C conversion). -/
def i2f (n : ℕ) : F32 := rneF n 1

/-- Single-precision division of two positive binary32 values. -/
def fdiv (x y : F32) : F32 :=
  if 0 ≤ x.e - y.e then rneF (x.m * 2 ^ (x.e - y.e).toNat) y.m
  else rneF x.m (y.m * 2 ^ (y.e - x.e).toNat)

/-- Single-precision multiplication of two positive binary32 values. -/
def fmul (x y : F32) : F32 :=
  if 0 ≤ x.e + y.e - 46 then rneF (x.m * y.m * 2 ^ (x.e + y.e - 46).toNat) 1
  else rneF (x.m * y.m) (2 ^ (46 - x.e - y.e).toNat)

/-- C cast `(int)` applied to a positive binary32 value: truncation toward
zero, i.e. the floor.  The C conversion is defined only for values below
2^31 (the 32-bit int range; beyond it the conversion is undefined
behaviour), so this model is faithful exactly on values below 2^31: every
theorem below that evaluates a cast restricts its hypotheses so that the
cast argument is proved smaller than 2^31. -/
def ftrunc (f : F32) : ℕ :=
  if 0 ≤ f.e - 23 then f.m * 2 ^ (f.e - 23).toNat else f.m / 2 ^ (23 - f.e).toNat

/-- Embedding of `get_render_size` (vf_d3d11sr.c, lines 148-169): the
aspect-preserving render-size policy.  `aspect_ratio` is the
single-precision quotient `(float)input_w / input_h`; the two size
computations truncate single-precision quotients/products exactly as the
C code's `(int)` casts do. -/
def get_render_size (input_w input_h window_w window_h : ℕ) : ℕ × ℕ :=
  if window_w < input_w ∨ window_h < input_h then (input_w, input_h)
  else
    let aspect_ratio := fdiv (i2f input_w) (i2f input_h)
    let out_h := ftrunc (fdiv (i2f window_w) aspect_ratio)
    if window_h < out_h then (ftrunc (fmul (i2f window_h) aspect_ratio), window_h)
    else (window_w, out_h)

example : get_render_size 1280 720 1920 1080 = (1920, 1080) := by decide
example : get_render_size 720 480 1920 1080 = (1620, 1080) := by decide
example : get_render_size 1920 1080 1280 720 = (1920, 1080) := by decide
example : get_render_size 640 360 1920 1080 = (1920, 1080) := by decide
example : get_render_size 643 361 1920 1080 = (1920, 1077) := by decide
example : get_render_size 2 14 4 28 = (4, 27) := by decide
example : get_render_size 25 36 1280 720 = (499, 720) := by decide

/-!
State-machine embedding.  The filter's private state (`struct priv`), the
per-cycle inputs supplied by its external collaborators (buffering
collaborator, GPU driver), and the two entry points
`vf_d3d11sr_process` / `render` are embedded as explicit state-passing
functions that additionally emit a trace of observable events.  Every
fallible external call (pool acquisition, enumerator / processor / view
creation, processing submission, vendor extension calls, reference
allocation) is resolved by a per-cycle environment of outcome flags, so
the embedding covers every success/failure interleaving the C code can
see.  GPU calls that the C code does not test for failure (stream
configuration, colour-space setup, the software-upload path) have no
observable effect on the modelled state and appear only as trace events
where a claim needs them.
-/

/-- Super-resolution mode (`opts.mode`): `SUPER_RESOLUTION_OFF`,
`SUPER_RESOLUTION_NVIDIA` or `SUPER_RESOLUTION_INTEL`. -/
inductive Mode
  | off
  | nvidia
  | intel
deriving DecidableEq, Repr

/-- Scale target preset (`opts.scale`). -/
inductive Scale
  | auto
  | p720
  | p1080
  | p1440
  | p2160
  | x2
  | x3
deriving DecidableEq, Repr

/-- Abstract pixel-format code for `mp_image_params.hw_subfmt`; the
concrete numeric values are immaterial, only distinctness matters. -/
def IMGFMT_NV12 : ℕ := 23

/-- DXGI pixel-format code for the processor-friendly packed format. -/
def DXGI_FORMAT_NV12 : ℕ := 103

/-- Stream parameters (`struct mp_image_params`): dimensions, hardware
sub-format, and a single abstract field standing for all remaining
metadata (colour description etc.), so that wholesale replacement is
observable. -/
structure Params where
  w : ℕ
  h : ℕ
  hw_subfmt : ℕ
  color : ℕ
deriving DecidableEq, Repr

/-- Input image format of the current frame: planar 4:2:0 (CPU-resident)
or already GPU-resident (`IMGFMT_420P` / `IMGFMT_D3D11`). -/
inductive ImgFmt
  | i420
  | d3d11
deriving DecidableEq, Repr

/-- The current input frame as seen by `render`: its logical size, its
format, and (for the GPU-resident case) the actual dimensions of its
underlying texture, which alignment may make larger than the logical
size. -/
structure Frame where
  imgfmt : ImgFmt
  w : ℕ
  h : ℕ
  surfaceW : ℕ
  surfaceH : ℕ
deriving DecidableEq, Repr

/-- Actual dimensions of the texture handed to the video processor
(`texdesc.Width/Height` after `GetDesc`): the software-upload path
creates a texture of the frame's logical size, the GPU path reuses the
frame's existing surface. -/
def texDims (fr : Frame) : ℕ × ℕ :=
  if fr.imgfmt = ImgFmt.i420 then (fr.w, fr.h) else (fr.surfaceW, fr.surfaceH)

/-- Filter private state (`struct priv`): options, processor / enumerator
presence, recorded source geometry `c_w/c_h`, stream and output
parameters, output DXGI format, and the output surface pool (the list of
surfaces the pool currently owns). -/
structure Priv where
  mode : Mode
  scale : Scale
  params : Params
  out_params : Params
  out_format : ℕ
  c_w : ℕ
  c_h : ℕ
  videoProc : Bool
  vpEnum : Bool
  pool : List (ℕ × ℕ)
deriving DecidableEq, Repr

/-- Outcomes of the fallible external calls a single `render` invocation
can make, plus the current frame presented by the buffering
collaborator. -/
structure RenderEnv where
  poolGetOk : Bool
  queueFrame : Option Frame
  enumOk : Bool
  capsOk : Bool
  procOk : Bool
  inViewOk : Bool
  outViewOk : Bool
  bltOk : Bool
  nvExtOk : Bool
  intelExt1Ok : Bool
  intelExt2Ok : Bool
  intelExt3Ok : Bool
deriving DecidableEq, Repr

/-- What a cycle writes to the output pin: a pass-through reference to
the input frame, or a newly rendered frame. -/
inductive OutKind
  | pass
  | rendered
deriving DecidableEq, Repr

/-- Observable events of one scheduling cycle. -/
inductive Ev
  | poolClear
  | releaseProc
  | releaseEnum
  | poolGet
  | uploadTex
  | recreate (cw ch : ℕ)
  | enumCreate
  | capsQuery
  | procCreate
  | createInView
  | createOutView
  | vendorNv
  | vendorIntel1
  | vendorIntel2
  | vendorIntel3
  | blt
  | newRef
  | markFailed
  | writeOut (o : Option OutKind)
deriving DecidableEq, Repr

/-- Release events of `destroy_video_proc` (lines 134-145): the processor
and then the enumerator are released when present. -/
def destroyEvs (p : Priv) : List Ev :=
  (if p.videoProc then [Ev.releaseProc] else []) ++ (if p.vpEnum then [Ev.releaseEnum] else [])

/-- State after `destroy_video_proc`: both handles absent. -/
def destroyProcSt (p : Priv) : Priv :=
  { p with videoProc := false, vpEnum := false }

/-- Embedding of `recreate_video_proc` (lines 277-346): destroy the old
processor, create the enumerator, query capabilities, create the
processor; any failure jumps to the `fail` label, which destroys the
partial state and reports failure.  The stream/output configuration calls
after successful creation are not tested for failure by the C code and do
not change the modelled state.  Returns (new state, success, trace). -/
def recreate_video_proc (p : Priv) (env : RenderEnv) : Priv × Bool × List Ev :=
  if !env.enumOk then (destroyProcSt p, false, destroyEvs p ++ [Ev.enumCreate])
  else if !env.capsOk then
    (destroyProcSt p, false, destroyEvs p ++ [Ev.enumCreate, Ev.capsQuery, Ev.releaseEnum])
  else if !env.procOk then
    (destroyProcSt p, false,
      destroyEvs p ++ [Ev.enumCreate, Ev.capsQuery, Ev.procCreate, Ev.releaseEnum])
  else ({ p with videoProc := true, vpEnum := true }, true,
    destroyEvs p ++ [Ev.enumCreate, Ev.capsQuery, Ev.procCreate])

/-- Embedding of `SetSuperResIntel` (lines 199-275): three sequential
output/stream extension calls — version negotiation, preprocessing mode,
scaling function; the first failure aborts the remaining calls (log
only). -/
def SetSuperResIntel (env : RenderEnv) : List Ev :=
  Ev.vendorIntel1 ::
    (if !env.intelExt1Ok then []
     else Ev.vendorIntel2 ::
       (if !env.intelExt2Ok then [] else [Ev.vendorIntel3]))

/-- Embedding of `SetSuperResNvidia` (lines 171-197): one stream
extension call; failure is only logged. -/
def SetSuperResNvidia (_env : RenderEnv) : List Ev := [Ev.vendorNv]

/-- Vendor enhancement dispatch in `render` (lines 476-483). -/
def vendorEvs (m : Mode) (env : RenderEnv) : List Ev :=
  match m with
  | Mode.off => []
  | Mode.nvidia => SetSuperResNvidia env
  | Mode.intel => SetSuperResIntel env

/-- Frame-ingest trace (lines 372-417): the software-upload path creates
and fills a GPU texture; the GPU-resident path reuses the existing
surface with no copy. -/
def ingestEvs (fr : Frame) : List Ev :=
  if fr.imgfmt = ImgFmt.i420 then [Ev.uploadTex] else []

/-- Rebuild trigger (line 432): no processor exists, or the recorded
source dimensions differ from the current surface's actual
dimensions. -/
def needRecreate (p : Priv) (fr : Frame) : Bool :=
  !p.videoProc || !(p.c_w = (texDims fr).1 && p.c_h = (texDims fr).2)

/-- Record the current surface's actual dimensions (lines 434-435). -/
def setCDims (p : Priv) (fr : Frame) : Priv :=
  { p with c_w := (texDims fr).1, c_h := (texDims fr).2 }

/-- Pool effect of a surface acquisition: the pool now holds a surface
sized to the current output parameters. -/
def poolPush (p : Priv) : Priv :=
  { p with pool := p.pool ++ [(p.out_params.w, p.out_params.h)] }

/-- Conditional rebuild step of `render` (lines 430-438): when the
trigger holds, record the new dimensions and run
`recreate_video_proc`; otherwise leave the state alone and report
success. -/
def recreateStep (p : Priv) (env : RenderEnv) (fr : Frame) : Priv × Bool × List Ev :=
  if needRecreate p fr then
    ((recreate_video_proc (setCDims p fr) env).1,
      (recreate_video_proc (setCDims p fr) env).2.1,
      [Ev.recreate (texDims fr).1 (texDims fr).2] ++ (recreate_video_proc (setCDims p fr) env).2.2)
  else (p, true, [])

/-- Embedding of `render` (lines 348-500).  Returns (new state, whether a
rendered frame is produced, trace).  Failure of any step releases the
transient views and the partially built output image and returns no
frame (`res < 0`, `TA_FREEP(&out)`); the stream is never marked failed
here. -/
def render (p : Priv) (env : RenderEnv) : Priv × Bool × List Ev :=
  if !env.poolGetOk then (p, false, [Ev.poolGet])
  else
    match env.queueFrame with
    | none => (poolPush p, false, [Ev.poolGet])
    | some fr =>
      if (recreateStep (poolPush p) env fr).2.1 = false then
        ((recreateStep (poolPush p) env fr).1, false,
          [Ev.poolGet] ++ ingestEvs fr ++ (recreateStep (poolPush p) env fr).2.2)
      else if !env.inViewOk then
        ((recreateStep (poolPush p) env fr).1, false,
          [Ev.poolGet] ++ ingestEvs fr ++ (recreateStep (poolPush p) env fr).2.2 ++ [Ev.createInView])
      else if !env.outViewOk then
        ((recreateStep (poolPush p) env fr).1, false,
          [Ev.poolGet] ++ ingestEvs fr ++ (recreateStep (poolPush p) env fr).2.2 ++
            [Ev.createInView, Ev.createOutView])
      else if !env.bltOk then
        ((recreateStep (poolPush p) env fr).1, false,
          [Ev.poolGet] ++ ingestEvs fr ++ (recreateStep (poolPush p) env fr).2.2 ++
            [Ev.createInView, Ev.createOutView] ++ vendorEvs p.mode env ++ [Ev.blt])
      else
        ((recreateStep (poolPush p) env fr).1, true,
          [Ev.poolGet] ++ ingestEvs fr ++ (recreateStep (poolPush p) env fr).2.2 ++
            [Ev.createInView, Ev.createOutView] ++ vendorEvs p.mode env ++ [Ev.blt])

/-- Resolution of `opts.scale` to a concrete scale target, the `switch`
in `vf_d3d11sr_process` (lines 514-540); `2X`/`3X` multiply the incoming
frame's dimensions. -/
def scaleTarget (s : Scale) (w h : ℕ) : ℕ × ℕ :=
  match s with
  | Scale.p720 => (1280, 720)
  | Scale.auto => (1920, 1080)
  | Scale.p1080 => (1920, 1080)
  | Scale.p1440 => (2560, 1440)
  | Scale.p2160 => (3840, 2160)
  | Scale.x2 => (2 * w, 2 * h)
  | Scale.x3 => (3 * w, 3 * h)

/-- Reinit handling in `vf_d3d11sr_process` (lines 506-546): clear the
output pool, destroy the processor, replace the stream parameters
wholesale, and derive the output parameters — via the render-size policy
and the forced packed NV12 format when a super-resolution mode is
enabled, as a plain mirror of the input otherwise. -/
def applyReinit (p : Priv) (newP : Params) : Priv × List Ev :=
  if p.mode ≠ Mode.off then
    ({ destroyProcSt p with
         pool := [], params := newP,
         out_params :=
           { newP with
               w := (get_render_size newP.w newP.h (scaleTarget p.scale newP.w newP.h).1
                       (scaleTarget p.scale newP.w newP.h).2).1,
               h := (get_render_size newP.w newP.h (scaleTarget p.scale newP.w newP.h).1
                       (scaleTarget p.scale newP.w newP.h).2).2,
               hw_subfmt := IMGFMT_NV12 },
         out_format := DXGI_FORMAT_NV12 },
      [Ev.poolClear] ++ destroyEvs p)
  else
    ({ destroyProcSt p with pool := [], params := newP, out_params := newP },
      [Ev.poolClear] ++ destroyEvs p)

/-- Per-cycle inputs of `vf_d3d11sr_process`: the pending reinit (if
any), the buffering collaborator's sufficiency answer, the outcome of the
pass-through reference allocation, and the environment for a possible
`render` call. -/
structure CycleIn where
  reinit : Option Params
  canOutput : Bool
  newRefOk : Bool
  renv : RenderEnv
deriving DecidableEq, Repr

/-- State after the reinit handling at the top of `vf_d3d11sr_process`:
unchanged when no reinit is pending, otherwise the `applyReinit`
result. -/
def reinitSt (p : Priv) (c : CycleIn) : Priv :=
  match c.reinit with
  | none => p
  | some newP => (applyReinit p newP).1

/-- Trace of the reinit handling at the top of `vf_d3d11sr_process`. -/
def reinitEvs (p : Priv) (c : CycleIn) : List Ev :=
  match c.reinit with
  | none => []
  | some newP => (applyReinit p newP).2

/-- Embedding of `vf_d3d11sr_process` (lines 502-567), one scheduling
cycle: reinit handling, buffering-sufficiency gate, dimension-parity
gate (terminal failure), then pass-through or render dispatch. -/
def vf_d3d11sr_process (p : Priv) (c : CycleIn) : Priv × List Ev :=
  if !c.canOutput then (reinitSt p c, reinitEvs p c)
  else if (reinitSt p c).params.w % 2 = 1 ∨ (reinitSt p c).params.h % 2 = 1 then
    (reinitSt p c, reinitEvs p c ++ [Ev.markFailed])
  else if (reinitSt p c).mode = Mode.off then
    (if !c.newRefOk then (reinitSt p c, reinitEvs p c ++ [Ev.newRef, Ev.markFailed])
     else (reinitSt p c, reinitEvs p c ++ [Ev.newRef, Ev.writeOut (some OutKind.pass)]))
  else
    ((render (reinitSt p c) c.renv).1,
      reinitEvs p c ++ (render (reinitSt p c) c.renv).2.2 ++
        [Ev.writeOut (if (render (reinitSt p c) c.renv).2.1 then some OutKind.rendered else none)])

/-- Events standing for a GPU allocation or GPU render work (surface
acquisition, software upload, enumerator/processor/view creation,
capability query, vendor extension calls, processing submission).
Releases, pool clearing, reference counting and state-machine
bookkeeping are not GPU work. -/
def isGpuWork : Ev → Bool
  | Ev.poolClear => false
  | Ev.releaseProc => false
  | Ev.releaseEnum => false
  | Ev.newRef => false
  | Ev.markFailed => false
  | Ev.writeOut _ => false
  | _ => true

/-- Recognizer for processor-rebuild events. -/
def isRecreate : Ev → Bool
  | Ev.recreate _ _ => true
  | _ => false

/-- Run a sequence of `render` calls, collecting the traces. -/
def runRenders (p : Priv) : List RenderEnv → Priv × List Ev
  | [] => (p, [])
  | env :: rest =>
    ((runRenders (render p env).1 rest).1,
      (render p env).2.2 ++ (runRenders (render p env).1 rest).2)

/-- Run a sequence of scheduling cycles, collecting the traces. -/
def runCycles (p : Priv) : List CycleIn → Priv × List Ev
  | [] => (p, [])
  | c :: rest =>
    ((runCycles (vf_d3d11sr_process p c).1 rest).1,
      (vf_d3d11sr_process p c).2 ++ (runCycles (vf_d3d11sr_process p c).1 rest).2)

/-- All fallible GPU steps of one `render` call succeed and the queue
presents frame `fr`. -/
def allOk (env : RenderEnv) (fr : Frame) : Prop :=
  env.poolGetOk = true ∧ env.queueFrame = some fr ∧ env.enumOk = true ∧
    env.capsOk = true ∧ env.procOk = true ∧ env.inViewOk = true ∧
    env.outViewOk = true ∧ env.bltOk = true

/-- A concrete GPU-resident 1280x720 frame, for instantiating theorems. -/
def sampleFrame : Frame := ⟨ImgFmt.d3d11, 1280, 720, 1280, 720⟩

/-- An environment in which every external call succeeds. -/
def okEnv : RenderEnv :=
  ⟨true, some sampleFrame, true, true, true, true, true, true, true, true, true, true⟩

/-- Concrete even-dimension stream parameters. -/
def sampleParams : Params := ⟨1280, 720, 0, 7⟩

/-- Concrete odd-width stream parameters. -/
def oddParams : Params := ⟨1281, 720, 0, 7⟩

/-- A concrete filter state in Intel super-resolution mode with no
processor built yet. -/
def samplePriv : Priv :=
  ⟨Mode.intel, Scale.auto, sampleParams, sampleParams, 0, 0, 0, false, false, []⟩

/-- A concrete filter state in pass-through mode. -/
def offPriv : Priv :=
  ⟨Mode.off, Scale.auto, sampleParams, sampleParams, 0, 0, 0, false, false, []⟩

/-- A cycle with no pending reinit in which every external call
succeeds. -/
def okCycle : CycleIn := ⟨none, true, true, okEnv⟩

/-- The reinit-handling trace is always the pool clear followed by the
release of whatever processor state existed. -/
lemma applyReinit_snd (p : Priv) (newP : Params) :
    (applyReinit p newP).2 = Ev.poolClear :: destroyEvs p := by
  unfold applyReinit
  split <;> rfl

/-- Reinit handling performs no GPU allocation and no render work, and
never marks the stream failed. -/
lemma reinitEvs_no_gpu (p : Priv) (c : CycleIn) :
    ∀ e ∈ reinitEvs p c, isGpuWork e = false ∧ e ≠ Ev.markFailed := by
  unfold reinitEvs
  cases c.reinit with
  | none => simp
  | some newP =>
    dsimp only
    rw [applyReinit_snd]
    unfold destroyEvs
    split_ifs <;> simp [isGpuWork]

/-- The claim of C2: for every input size and target with `inputW >
targetW` or `inputH > targetH`, `get_render_size` returns the input size
unchanged — the policy never downscales a source larger than the
target. -/
theorem get_render_size_no_downscale (iw ih ww wh : ℕ) (h : ww < iw ∨ wh < ih) :
    get_render_size iw ih ww wh = (iw, ih) := by
  unfold get_render_size
  rw [if_pos h]

/-- Witness for C2 at the spec's own example: `renderSize(1920,1080,
1280,720) = (1920,1080)`. -/
theorem get_render_size_no_downscale_witness :
    ((1280 : ℕ) < 1920 ∨ (720 : ℕ) < 1080) ∧ get_render_size 1920 1080 1280 720 = (1920, 1080) :=
  ⟨Or.inl (by decide), get_render_size_no_downscale 1920 1080 1280 720 (Or.inl (by decide))⟩

/-- The claim of C3: when the stream parameters current after reinit
handling have odd width or height, a cycle with sufficient buffered
input marks the stream failed, with no GPU allocation or render work
anywhere in the cycle and nothing after the failure; and the check
ordering is reinit handling first, buffering sufficiency second,
parity third — a cycle with insufficient input still performs the
reinit handling but reports no failure. -/
theorem process_parity_gate (p : Priv) (c : CycleIn)
    (hodd : (reinitSt p c).params.w % 2 = 1 ∨ (reinitSt p c).params.h % 2 = 1) :
    (c.canOutput = true →
      (vf_d3d11sr_process p c).2 = reinitEvs p c ++ [Ev.markFailed] ∧
      (vf_d3d11sr_process p c).1 = reinitSt p c ∧
      ∀ e ∈ (vf_d3d11sr_process p c).2, isGpuWork e = false) ∧
    (c.canOutput = false →
      (vf_d3d11sr_process p c).2 = reinitEvs p c ∧
      Ev.markFailed ∉ (vf_d3d11sr_process p c).2) := by
  constructor
  · intro hco
    have h2 : vf_d3d11sr_process p c = (reinitSt p c, reinitEvs p c ++ [Ev.markFailed]) := by
      unfold vf_d3d11sr_process
      rw [hco, if_neg (by simp), if_pos hodd]
    refine ⟨by rw [h2], by rw [h2], ?_⟩
    intro e he
    rw [h2] at he
    rcases List.mem_append.1 he with h | h
    · exact (reinitEvs_no_gpu p c e h).1
    · simp at h
      subst h
      rfl
  · intro hco
    have h2 : vf_d3d11sr_process p c = (reinitSt p c, reinitEvs p c) := by
      unfold vf_d3d11sr_process
      rw [hco, if_pos (by simp)]
    refine ⟨by rw [h2], ?_⟩
    rw [h2]
    intro hmem
    exact (reinitEvs_no_gpu p c _ hmem).2 rfl

/-- Witness for C3: a cycle on a 1281x720 stream with sufficient input
marks the stream failed with no GPU work. -/
theorem process_parity_gate_witness :
    ((reinitSt { samplePriv with params := oddParams } okCycle).params.w % 2 = 1 ∨
      (reinitSt { samplePriv with params := oddParams } okCycle).params.h % 2 = 1) ∧
    (vf_d3d11sr_process { samplePriv with params := oddParams } okCycle).2 =
      reinitEvs { samplePriv with params := oddParams } okCycle ++ [Ev.markFailed] := by
  have h := process_parity_gate { samplePriv with params := oddParams } okCycle
    (Or.inl (by decide))
  exact ⟨Or.inl (by decide), (h.1 (by decide)).1⟩

/-- The claim of C9: reinit handling clears the output pool in full,
discards the processor state, replaces the stream parameters wholesale,
and recomputes the output parameters — through the render-size policy
with the packed NV12 format forced when a super-resolution mode is
enabled, as a mirror of the new input parameters otherwise; and this is
exactly what a scheduling cycle with a pending reinit performs before
anything else. -/
theorem reinit_resets_state (p : Priv) (newP : Params) :
    (applyReinit p newP).1.pool = [] ∧
    (applyReinit p newP).1.videoProc = false ∧
    (applyReinit p newP).1.vpEnum = false ∧
    (applyReinit p newP).1.params = newP ∧
    (p.mode ≠ Mode.off →
      (applyReinit p newP).1.out_params =
        { newP with
            w := (get_render_size newP.w newP.h (scaleTarget p.scale newP.w newP.h).1
                    (scaleTarget p.scale newP.w newP.h).2).1,
            h := (get_render_size newP.w newP.h (scaleTarget p.scale newP.w newP.h).1
                    (scaleTarget p.scale newP.w newP.h).2).2,
            hw_subfmt := IMGFMT_NV12 } ∧
      (applyReinit p newP).1.out_format = DXGI_FORMAT_NV12) ∧
    (p.mode = Mode.off → (applyReinit p newP).1.out_params = newP) ∧
    (∀ c : CycleIn, c.reinit = some newP → c.canOutput = false →
      vf_d3d11sr_process p c = applyReinit p newP) := by
  refine ⟨?_, ?_, ?_, ?_, ?_, ?_, ?_⟩
  · unfold applyReinit destroyProcSt
    split <;> rfl
  · unfold applyReinit destroyProcSt
    split <;> rfl
  · unfold applyReinit destroyProcSt
    split <;> rfl
  · unfold applyReinit destroyProcSt
    split <;> rfl
  · intro hm
    unfold applyReinit destroyProcSt
    rw [if_pos hm]
    exact ⟨rfl, rfl⟩
  · intro hm
    unfold applyReinit destroyProcSt
    rw [if_neg (by simpa using hm)]
  · intro c hre hco
    unfold vf_d3d11sr_process reinitSt reinitEvs
    rw [hre, hco, if_pos (by simp)]

/-- Witness for C9: a reinit to 640x480 in Intel mode at the default
(1080p-equivalent) scale target yields 1440x1080 NV12 output parameters
and an empty pool. -/
theorem reinit_resets_state_witness :
    (samplePriv.mode ≠ Mode.off) ∧
    (applyReinit samplePriv ⟨640, 480, 0, 3⟩).1.out_params = ⟨1440, 1080, IMGFMT_NV12, 3⟩ ∧
    (applyReinit samplePriv ⟨640, 480, 0, 3⟩).1.pool = [] := by
  have h := reinit_resets_state samplePriv ⟨640, 480, 0, 3⟩
  have hm : samplePriv.mode ≠ Mode.off := by decide
  refine ⟨hm, ?_, h.1⟩
  rw [(h.2.2.2.2.1 hm).1]
  decide

/-- The rebuild trigger holds exactly when no processor exists or the
recorded dimensions differ from the current surface's. -/
lemma needRecreate_iff (p : Priv) (fr : Frame) :
    needRecreate p fr = true ↔
      (p.videoProc = false ∨ p.c_w ≠ (texDims fr).1 ∨ p.c_h ≠ (texDims fr).2) := by
  unfold needRecreate
  cases hv : p.videoProc <;> simp [hv]

/-- Success path of `recreate_video_proc`. -/
lemma recreate_vp_success (p : Priv) (env : RenderEnv)
    (he : env.enumOk = true) (hc : env.capsOk = true) (hp : env.procOk = true) :
    recreate_video_proc p env =
      ({ p with videoProc := true, vpEnum := true }, true,
        destroyEvs p ++ [Ev.enumCreate, Ev.capsQuery, Ev.procCreate]) := by
  unfold recreate_video_proc
  rw [he, hc, hp]
  rfl

/-- Any failing step of `recreate_video_proc` reports failure and leaves
both the processor and the enumerator released. -/
lemma recreate_vp_fail (p : Priv) (env : RenderEnv)
    (hf : env.enumOk = false ∨ env.capsOk = false ∨ env.procOk = false) :
    (recreate_video_proc p env).2.1 = false ∧
    (recreate_video_proc p env).1.videoProc = false ∧
    (recreate_video_proc p env).1.vpEnum = false := by
  unfold recreate_video_proc destroyProcSt
  cases he : env.enumOk <;> cases hc : env.capsOk <;> cases hp : env.procOk <;>
    simp_all

/-- `recreate_video_proc` never touches the recorded source dimensions,
the options, the parameters or the pool. -/
lemma recreate_vp_inv (p : Priv) (env : RenderEnv) :
    (recreate_video_proc p env).1.c_w = p.c_w ∧ (recreate_video_proc p env).1.c_h = p.c_h ∧
    (recreate_video_proc p env).1.mode = p.mode ∧ (recreate_video_proc p env).1.pool = p.pool ∧
    (recreate_video_proc p env).1.out_params = p.out_params := by
  unfold recreate_video_proc destroyProcSt
  split_ifs <;> exact ⟨rfl, rfl, rfl, rfl, rfl⟩

/-- The trace of `recreate_video_proc` contains no rebuild marker (the
marker is emitted by its caller) and no stream failure. -/
lemma recreate_vp_evs (p : Priv) (env : RenderEnv) :
    ((recreate_video_proc p env).2.2).filter isRecreate = [] ∧
    Ev.markFailed ∉ (recreate_video_proc p env).2.2 := by
  unfold recreate_video_proc destroyEvs
  split_ifs <;> simp [isRecreate]

/-- The rebuild markers in the trace of the conditional rebuild step:
exactly one when the trigger holds, none otherwise. -/
lemma recreateStep_filter (p : Priv) (env : RenderEnv) (fr : Frame) :
    ((recreateStep p env fr).2.2).filter isRecreate =
      (if needRecreate p fr then [Ev.recreate (texDims fr).1 (texDims fr).2] else []) := by
  unfold recreateStep
  split_ifs with h
  · simp [isRecreate, (recreate_vp_evs (setCDims p fr) env).1]
  · simp

/-- The vendor adapters never emit rebuild markers or stream
failures. -/
lemma vendorEvs_events (m : Mode) (env : RenderEnv) :
    (vendorEvs m env).filter isRecreate = [] ∧ Ev.markFailed ∉ vendorEvs m env := by
  cases m with
  | off => simp [vendorEvs]
  | nvidia => simp [vendorEvs, SetSuperResNvidia, isRecreate]
  | intel =>
    unfold vendorEvs SetSuperResIntel
    split_ifs <;> simp [isRecreate]

/-- Frame ingest emits no rebuild marker and no stream failure. -/
lemma ingestEvs_events (fr : Frame) :
    (ingestEvs fr).filter isRecreate = [] ∧ Ev.markFailed ∉ ingestEvs fr := by
  unfold ingestEvs
  split_ifs <;> decide

/-- The rebuild markers of a whole `render` call are exactly those of its
conditional rebuild step. -/
lemma render_filter_recreate (p : Priv) (env : RenderEnv) (fr : Frame)
    (hpg : env.poolGetOk = true) (hqf : env.queueFrame = some fr) :
    ((render p env).2.2).filter isRecreate =
      (if needRecreate p fr then [Ev.recreate (texDims fr).1 (texDims fr).2] else []) := by
  unfold render
  rw [hpg, hqf, if_neg (by simp)]
  have hrs := recreateStep_filter (poolPush p) env fr
  have hns : needRecreate (poolPush p) fr = needRecreate p fr := rfl
  rw [hns] at hrs
  cases h1 : (recreateStep (poolPush p) env fr).2.1 <;>
    cases h2 : env.inViewOk <;> cases h3 : env.outViewOk <;> cases h4 : env.bltOk <;>
      simp [h1, h2, h3, h4, List.filter_append, hrs, (ingestEvs_events fr).1,
        (vendorEvs_events p.mode env).1, isRecreate]

/-- `render` never marks the stream failed. -/
lemma render_no_markFailed (p : Priv) (env : RenderEnv) :
    Ev.markFailed ∉ (render p env).2.2 := by
  unfold render
  cases hpg : env.poolGetOk
  · simp
  · cases hqf : env.queueFrame with
    | none => simp
    | some fr =>
      have h1 := (ingestEvs_events fr).2
      have h2 : Ev.markFailed ∉ (recreateStep (poolPush p) env fr).2.2 := by
        unfold recreateStep
        split_ifs
        · simp [(recreate_vp_evs (setCDims (poolPush p) fr) env).2]
        · simp
      have h3 := (vendorEvs_events p.mode env).2
      cases h4 : (recreateStep (poolPush p) env fr).2.1 <;>
        cases h5 : env.inViewOk <;> cases h6 : env.outViewOk <;> cases h7 : env.bltOk <;>
          simp_all

/-- Evaluation of the rebuild step when the trigger holds. -/
lemma recreateStep_pos (p : Priv) (env : RenderEnv) (fr : Frame)
    (h : needRecreate p fr = true) :
    recreateStep p env fr =
      ((recreate_video_proc (setCDims p fr) env).1,
        (recreate_video_proc (setCDims p fr) env).2.1,
        [Ev.recreate (texDims fr).1 (texDims fr).2] ++
          (recreate_video_proc (setCDims p fr) env).2.2) := by
  unfold recreateStep
  rw [if_pos h]

/-- Evaluation of the rebuild step when the trigger does not hold. -/
lemma recreateStep_neg (p : Priv) (env : RenderEnv) (fr : Frame)
    (h : needRecreate p fr = false) :
    recreateStep p env fr = (p, true, []) := by
  unfold recreateStep
  rw [if_neg (by simp [h])]

/-- When every GPU step succeeds, the rebuild step succeeds. -/
lemma recreateStep_allOk (p : Priv) (env : RenderEnv) (fr : Frame)
    (he : env.enumOk = true) (hc : env.capsOk = true) (hp : env.procOk = true) :
    (recreateStep p env fr).2.1 = true := by
  by_cases hnr : needRecreate p fr = true
  · rw [recreateStep_pos p env fr hnr, recreate_vp_success _ _ he hc hp]
  · rw [recreateStep_neg p env fr (by simpa using hnr)]

/-- Full evaluation of `render` when every external call succeeds. -/
lemma render_allOk (p : Priv) (env : RenderEnv) (fr : Frame) (hok : allOk env fr) :
    render p env =
      ((recreateStep (poolPush p) env fr).1, true,
        [Ev.poolGet] ++ ingestEvs fr ++ (recreateStep (poolPush p) env fr).2.2 ++
          [Ev.createInView, Ev.createOutView] ++ vendorEvs p.mode env ++ [Ev.blt]) := by
  obtain ⟨hpg, hqf, he, hc, hp2, hiv, hov, hb⟩ := hok
  have hsucc := recreateStep_allOk (poolPush p) env fr he hc hp2
  unfold render
  rw [hpg, hqf, if_neg (by simp)]
  dsimp only
  rw [if_neg (by simp [hsucc]), if_neg (by simp [hiv]), if_neg (by simp [hov]),
    if_neg (by simp [hb])]

/-- After a successful `render` the processor exists and the recorded
dimensions equalent the surface's actual dimensions. -/
lemma render_allOk_state (p : Priv) (env : RenderEnv) (fr : Frame) (hok : allOk env fr) :
    (render p env).1.videoProc = true ∧ (render p env).1.c_w = (texDims fr).1 ∧
    (render p env).1.c_h = (texDims fr).2 := by
  obtain ⟨hpg, hqf, he, hc, hp2, hiv, hov, hb⟩ := hok
  rw [render_allOk p env fr ⟨hpg, hqf, he, hc, hp2, hiv, hov, hb⟩]
  by_cases hnr : needRecreate (poolPush p) fr = true
  · rw [recreateStep_pos _ env fr hnr, recreate_vp_success _ _ he hc hp2]
    exact ⟨rfl, rfl, rfl⟩
  · rw [recreateStep_neg _ env fr (by simpa using hnr)]
    have h3 : ¬(p.videoProc = false ∨ p.c_w ≠ (texDims fr).1 ∨ p.c_h ≠ (texDims fr).2) := by
      intro hcond
      exact hnr ((needRecreate_iff p fr).2 hcond)
    push_neg at h3
    exact ⟨by simpa using h3.1, h3.2.1, h3.2.2⟩

/-- Over a run of frames with stable geometry matching the recorded
state, no rebuild at all occurs. -/
lemma runRenders_stable (envs : List RenderEnv) (p : Priv) (d : ℕ × ℕ)
    (hv : p.videoProc = true) (hw : p.c_w = d.1) (hh : p.c_h = d.2)
    (henvs : ∀ env ∈ envs, ∃ fr, allOk env fr ∧ texDims fr = d) :
    ((runRenders p envs).2).filter isRecreate = [] := by
  induction envs generalizing p with
  | nil => simp [runRenders]
  | cons env rest ih =>
    obtain ⟨fr, hok, hfd⟩ := henvs env (List.mem_cons_self env rest)
    have hns : needRecreate p fr = false := by
      have hcnot : ¬(p.videoProc = false ∨ p.c_w ≠ (texDims fr).1 ∨ p.c_h ≠ (texDims fr).2) := by
        rw [hfd]
        simp [hv, hw, hh]
      cases hnb : needRecreate p fr
      · rfl
      · exact absurd ((needRecreate_iff p fr).1 hnb) hcnot
    have h1 : ((render p env).2.2).filter isRecreate = [] := by
      rw [render_filter_recreate p env fr hok.1 hok.2.1, if_neg (by simp [hns])]
    have hst := render_allOk_state p env fr hok
    unfold runRenders
    rw [List.filter_append, h1,
      ih (render p env).1 hst.1 (by rw [hst.2.1, hfd]) (by rw [hst.2.2, hfd])
        (fun e hmem => henvs e (List.mem_cons_of_mem env hmem))]
    rfl

/-- The claim of C4: the video processor is rebuilt exactly when no
processor exists or its recorded source dimensions differ from the
current input surface's actual dimensions, and on a run of frames with
stable geometry and successful GPU calls at most one rebuild happens in
total. -/
theorem render_rebuild_trigger :
    (∀ (p : Priv) (env : RenderEnv) (fr : Frame),
      env.poolGetOk = true → env.queueFrame = some fr →
      ((p.videoProc = false ∨ p.c_w ≠ (texDims fr).1 ∨ p.c_h ≠ (texDims fr).2) →
        ((render p env).2.2).filter isRecreate =
          [Ev.recreate (texDims fr).1 (texDims fr).2]) ∧
      (p.videoProc = true ∧ p.c_w = (texDims fr).1 ∧ p.c_h = (texDims fr).2 →
        ((render p env).2.2).filter isRecreate = [])) ∧
    (∀ (p : Priv) (envs : List RenderEnv) (d : ℕ × ℕ),
      (∀ env ∈ envs, ∃ fr, allOk env fr ∧ texDims fr = d) →
      (((runRenders p envs).2).filter isRecreate).length ≤ 1) := by
  constructor
  · intro p env fr hpg hqf
    constructor
    · intro hcond
      rw [render_filter_recreate p env fr hpg hqf,
        if_pos ((needRecreate_iff p fr).2 hcond)]
    · intro hcond
      have hns : needRecreate p fr = false := by
        have hcnot : ¬(p.videoProc = false ∨ p.c_w ≠ (texDims fr).1 ∨ p.c_h ≠ (texDims fr).2) := by
          simp [hcond.1, hcond.2.1, hcond.2.2]
        cases hnb : needRecreate p fr
        · rfl
        · exact absurd ((needRecreate_iff p fr).1 hnb) hcnot
      rw [render_filter_recreate p env fr hpg hqf, if_neg (by simp [hns])]
  · intro p envs d henvs
    cases envs with
    | nil => simp [runRenders]
    | cons env rest =>
      obtain ⟨fr, hok, hfd⟩ := henvs env (List.mem_cons_self env rest)
      have hst := render_allOk_state p env fr hok
      have hrest : ((runRenders (render p env).1 rest).2).filter isRecreate = [] :=
        runRenders_stable rest (render p env).1 d hst.1 (by rw [hst.2.1, hfd])
          (by rw [hst.2.2, hfd]) (fun e hmem => henvs e (List.mem_cons_of_mem env hmem))
      have hhead : (((render p env).2.2).filter isRecreate).length ≤ 1 := by
        rw [render_filter_recreate p env fr hok.1 hok.2.1]
        split_ifs <;> simp
      unfold runRenders
      rw [List.filter_append, List.length_append, hrest]
      simpa using hhead

/-- Witness for C4: starting with no processor, a successful render of a
1280x720 surface emits exactly one rebuild. -/
theorem render_rebuild_trigger_witness :
    (samplePriv.videoProc = false ∨ samplePriv.c_w ≠ (texDims sampleFrame).1 ∨
      samplePriv.c_h ≠ (texDims sampleFrame).2) ∧
    ((render samplePriv okEnv).2.2).filter isRecreate =
      [Ev.recreate (texDims sampleFrame).1 (texDims sampleFrame).2] := by
  have h := (render_rebuild_trigger.1 samplePriv okEnv sampleFrame rfl rfl).1
  exact ⟨Or.inl rfl, h (Or.inl rfl)⟩

/-- The claim of C5: any failing step of a processor rebuild releases
the partially created processor and enumerator and reports failure; a
`render` that triggered the rebuild then drops the frame (no output
produced, not even a stream failure), and because the processor is left
absent the next frame with an available surface retries the rebuild. -/
theorem rebuild_failure_transient :
    (∀ (p : Priv) (env : RenderEnv),
      (env.enumOk = false ∨ env.capsOk = false ∨ env.procOk = false) →
      (recreate_video_proc p env).2.1 = false ∧
      (recreate_video_proc p env).1.videoProc = false ∧
      (recreate_video_proc p env).1.vpEnum = false) ∧
    (∀ (p : Priv) (env : RenderEnv) (fr : Frame),
      env.poolGetOk = true → env.queueFrame = some fr →
      needRecreate p fr = true →
      (env.enumOk = false ∨ env.capsOk = false ∨ env.procOk = false) →
      (render p env).2.1 = false ∧
      (render p env).1.videoProc = false ∧
      (render p env).1.vpEnum = false ∧
      Ev.markFailed ∉ (render p env).2.2 ∧
      (∀ (env2 : RenderEnv) (fr2 : Frame), env2.poolGetOk = true →
        env2.queueFrame = some fr2 →
        ((render (render p env).1 env2).2.2).filter isRecreate ≠ [])) := by
  refine ⟨fun p env hf => recreate_vp_fail p env hf, ?_⟩
  intro p env fr hpg hqf hnr hf
  have hnr2 : needRecreate (poolPush p) fr = true := hnr
  have hfail := recreate_vp_fail (setCDims (poolPush p) fr) env hf
  have hrender : render p env =
      ((recreate_video_proc (setCDims (poolPush p) fr) env).1, false,
        [Ev.poolGet] ++ ingestEvs fr ++
          ([Ev.recreate (texDims fr).1 (texDims fr).2] ++
            (recreate_video_proc (setCDims (poolPush p) fr) env).2.2)) := by
    unfold render
    rw [hpg, hqf, if_neg (by simp)]
    dsimp only
    rw [recreateStep_pos _ env fr hnr2, if_pos hfail.1]
  refine ⟨by rw [hrender], by rw [hrender]; exact hfail.2.1, by rw [hrender]; exact hfail.2.2,
    render_no_markFailed p env, ?_⟩
  intro env2 fr2 hpg2 hqf2
  have hv2 : (render p env).1.videoProc = false := by rw [hrender]; exact hfail.2.1
  have : needRecreate (render p env).1 fr2 = true :=
    (needRecreate_iff _ fr2).2 (Or.inl hv2)
  rw [render_filter_recreate (render p env).1 env2 fr2 hpg2 hqf2, if_pos this]
  simp

/-- Witness for C5: with a failing enumerator-creation call, a render on
a fresh state drops the frame, leaves the processor absent, and the
next render retries the rebuild. -/
theorem rebuild_failure_transient_witness :
    (render samplePriv { okEnv with enumOk := false }).2.1 = false ∧
    (render samplePriv { okEnv with enumOk := false }).1.videoProc = false ∧
    ((render (render samplePriv { okEnv with enumOk := false }).1 okEnv).2.2).filter
        isRecreate ≠ [] := by
  have h := rebuild_failure_transient.2 samplePriv { okEnv with enumOk := false } sampleFrame
    rfl rfl (by decide) (Or.inl rfl)
  exact ⟨h.1, h.2.1, h.2.2.2.2 okEnv sampleFrame rfl rfl⟩

/-- A cycle whose pass-through reference allocation fails. -/
def refFailCycle : CycleIn := ⟨none, true, false, okEnv⟩

/-- Counterexample to C6 as stated: in pass-through mode, on a stream
with even dimensions (so the parity check passes) and outside bind time,
a failed reference allocation still marks the stream failed — a third
terminal failure besides bind-time and parity. -/
theorem process_even_ref_failure_cex :
    Ev.markFailed ∈ (vf_d3d11sr_process offPriv refFailCycle).2 ∧
    offPriv.params.w % 2 = 0 ∧ offPriv.params.h % 2 = 0 := by decide

/-- The amended claim of C6: on an even-dimension stream with
sufficient input, every render-path failure (pool exhaustion, rebuild,
view creation, submission) drops the frame and leaves the stream alive
(no failure mark, a "no frame" submission to the output); the only
per-frame terminal failure besides the parity gate is the pass-through
reference-allocation failure. -/
theorem process_failure_modes (p : Priv) (c : CycleIn)
    (hco : c.canOutput = true)
    (hw : (reinitSt p c).params.w % 2 = 0) (hh : (reinitSt p c).params.h % 2 = 0) :
    ((reinitSt p c).mode ≠ Mode.off →
      Ev.markFailed ∉ (vf_d3d11sr_process p c).2 ∧
      ((render (reinitSt p c) c.renv).2.1 = false →
        Ev.writeOut none ∈ (vf_d3d11sr_process p c).2)) ∧
    ((reinitSt p c).mode = Mode.off →
      (Ev.markFailed ∈ (vf_d3d11sr_process p c).2 ↔ c.newRefOk = false)) := by
  have hpar : ¬((reinitSt p c).params.w % 2 = 1 ∨ (reinitSt p c).params.h % 2 = 1) := by
    omega
  constructor
  · intro hmode
    have heval : vf_d3d11sr_process p c =
        ((render (reinitSt p c) c.renv).1,
          reinitEvs p c ++ (render (reinitSt p c) c.renv).2.2 ++
            [Ev.writeOut (if (render (reinitSt p c) c.renv).2.1 then some OutKind.rendered
              else none)]) := by
      unfold vf_d3d11sr_process
      rw [hco, if_neg (by simp), if_neg hpar, if_neg hmode]
    constructor
    · rw [heval]
      intro hmem
      simp only [List.mem_append] at hmem
      rcases hmem with (hmem | hmem) | hmem
      · exact (reinitEvs_no_gpu p c _ hmem).2 rfl
      · exact render_no_markFailed (reinitSt p c) c.renv hmem
      · simp at hmem
    · intro hrf
      rw [heval]
      simp [hrf]
  · intro hmode
    cases hnr : c.newRefOk
    · have heval : vf_d3d11sr_process p c =
          (reinitSt p c, reinitEvs p c ++ [Ev.newRef, Ev.markFailed]) := by
        unfold vf_d3d11sr_process
        rw [hco, if_neg (by simp), if_neg hpar, if_pos hmode, hnr, if_pos (by simp)]
      rw [heval]
      simp
    · have heval : vf_d3d11sr_process p c =
          (reinitSt p c, reinitEvs p c ++ [Ev.newRef, Ev.writeOut (some OutKind.pass)]) := by
        unfold vf_d3d11sr_process
        rw [hco, if_neg (by simp), if_neg hpar, if_pos hmode, hnr, if_neg (by simp)]
      rw [heval]
      simp only [List.mem_append]
      constructor
      · intro hmem
        rcases hmem with hmem | hmem
        · exact absurd rfl ((reinitEvs_no_gpu p c _ hmem).2)
        · simp at hmem
      · intro hfalse
        exact absurd hfalse (by simp)

/-- Witness for C6 (amended): in Intel mode with every GPU call failing
at the pool, the frame is dropped with no stream failure. -/
theorem process_failure_modes_witness :
    Ev.markFailed ∉
      (vf_d3d11sr_process samplePriv { okCycle with renv := { okEnv with poolGetOk := false } }).2 ∧
    Ev.writeOut none ∈
      (vf_d3d11sr_process samplePriv { okCycle with renv := { okEnv with poolGetOk := false } }).2 := by
  have h := (process_failure_modes samplePriv
    { okCycle with renv := { okEnv with poolGetOk := false } } rfl (by decide) (by decide)).1
    (by decide)
  exact ⟨h.1, h.2 (by decide)⟩

/-- One pass-through cycle: a new reference is taken and written out,
the state is untouched. -/
lemma process_off_cycle (p : Priv) (c : CycleIn) (hm : p.mode = Mode.off)
    (hre : c.reinit = none) (hco : c.canOutput = true) (hnr : c.newRefOk = true)
    (hw : p.params.w % 2 = 0) (hh : p.params.h % 2 = 0) :
    vf_d3d11sr_process p c = (p, [Ev.newRef, Ev.writeOut (some OutKind.pass)]) := by
  have hst : reinitSt p c = p := by
    unfold reinitSt
    rw [hre]
  have hevs : reinitEvs p c = [] := by
    unfold reinitEvs
    rw [hre]
  unfold vf_d3d11sr_process
  rw [hco, hst, hevs, if_neg (by simp), if_neg (by omega), if_pos hm, hnr,
    if_neg (by simp)]
  rfl

/-- The claim of C7: with the mode off, a run of cycles with buffered
input and successful reference allocation produces one pass-through
reference per cycle, leaves the filter state untouched, and performs no
pool allocation and no GPU work — the trace holds nothing but the
reference operations and the pass-through submissions. -/
theorem process_off_passthrough (p : Priv) (cs : List CycleIn)
    (hm : p.mode = Mode.off) (hw : p.params.w % 2 = 0) (hh : p.params.h % 2 = 0)
    (hcs : ∀ c ∈ cs, c.reinit = none ∧ c.canOutput = true ∧ c.newRefOk = true) :
    (runCycles p cs).1 = p ∧
    ((runCycles p cs).2.count (Ev.writeOut (some OutKind.pass))) = cs.length ∧
    (∀ e ∈ (runCycles p cs).2, e = Ev.newRef ∨ e = Ev.writeOut (some OutKind.pass)) := by
  induction cs with
  | nil => exact ⟨rfl, rfl, by simp [runCycles]⟩
  | cons c rest ih =>
    obtain ⟨hre, hco, hnr⟩ := hcs c (List.mem_cons_self c rest)
    have hc1 := process_off_cycle p c hm hre hco hnr hw hh
    have ihr := ih (fun c2 h2 => hcs c2 (List.mem_cons_of_mem c h2))
    have hcons : runCycles p (c :: rest) =
        ((runCycles (vf_d3d11sr_process p c).1 rest).1,
          (vf_d3d11sr_process p c).2 ++ (runCycles (vf_d3d11sr_process p c).1 rest).2) := rfl
    have heq : runCycles p (c :: rest) =
        ((runCycles p rest).1,
          [Ev.newRef, Ev.writeOut (some OutKind.pass)] ++ (runCycles p rest).2) := by
      rw [hcons, hc1]
    rw [heq]
    refine ⟨ihr.1, ?_, ?_⟩
    · rw [List.count_append, ihr.2.1]
      simp [List.count_cons]
      omega
    · intro e hmem
      rcases List.mem_append.1 hmem with hmem | hmem
      · simp at hmem
        rcases hmem with h | h <;> simp [h]
      · exact ihr.2.2 e hmem

/-- Witness for C7: three pass-through cycles produce three pass-through
references and nothing else. -/
theorem process_off_passthrough_witness :
    (runCycles offPriv [okCycle, okCycle, okCycle]).1 = offPriv ∧
    ((runCycles offPriv [okCycle, okCycle, okCycle]).2.count
      (Ev.writeOut (some OutKind.pass))) = 3 := by
  have h := process_off_passthrough offPriv [okCycle, okCycle, okCycle] rfl (by decide)
    (by decide) (by intro c hc; simp at hc; subst hc; exact ⟨rfl, rfl, rfl⟩)
  exact ⟨h.1, h.2.1⟩

/-- Replacement of the four vendor-extension outcome flags of an
environment. -/
def setVendor (env : RenderEnv) (b1 b2 b3 b4 : Bool) : RenderEnv :=
  { env with nvExtOk := b1, intelExt1Ok := b2, intelExt2Ok := b3, intelExt3Ok := b4 }

/-- The claim of C8: vendor enhancement failures never cause frame-level
failure — the state and the produced-frame outcome of `render` are
independent of all four vendor-extension outcome flags; and the VendorB
(Intel) adapter attempts its three calls strictly in order, aborting the
remaining ones at the first failure. -/
theorem vendor_failure_isolated :
    (∀ (p : Priv) (env : RenderEnv) (b1 b2 b3 b4 : Bool),
      (render p (setVendor env b1 b2 b3 b4)).1 = (render p env).1 ∧
      (render p (setVendor env b1 b2 b3 b4)).2.1 = (render p env).2.1) ∧
    (∀ env : RenderEnv,
      (env.intelExt1Ok = false → SetSuperResIntel env = [Ev.vendorIntel1]) ∧
      (env.intelExt1Ok = true → env.intelExt2Ok = false →
        SetSuperResIntel env = [Ev.vendorIntel1, Ev.vendorIntel2]) ∧
      (env.intelExt1Ok = true → env.intelExt2Ok = true →
        SetSuperResIntel env = [Ev.vendorIntel1, Ev.vendorIntel2, Ev.vendorIntel3])) := by
  constructor
  · intro p env b1 b2 b3 b4
    obtain ⟨pg, qf, eo, co, po, iv, ov, bo, nv, i1, i2, i3⟩ := env
    unfold render setVendor
    dsimp only
    cases pg
    · exact ⟨rfl, rfl⟩
    · cases qf with
      | none => exact ⟨rfl, rfl⟩
      | some fr =>
        dsimp only
        have hstep : recreateStep (poolPush p)
            ⟨true, some fr, eo, co, po, iv, ov, bo, b1, b2, b3, b4⟩ fr =
            recreateStep (poolPush p)
              ⟨true, some fr, eo, co, po, iv, ov, bo, nv, i1, i2, i3⟩ fr := rfl
        rw [hstep]
        cases h1 : (recreateStep (poolPush p)
            ⟨true, some fr, eo, co, po, iv, ov, bo, nv, i1, i2, i3⟩ fr).2.1 <;>
          cases iv <;> cases ov <;> cases bo <;> simp [h1]
  · intro env
    refine ⟨?_, ?_, ?_⟩
    · intro h1
      unfold SetSuperResIntel
      rw [h1]
      rfl
    · intro h1 h2
      unfold SetSuperResIntel
      rw [h1, h2]
      rfl
    · intro h1 h2
      unfold SetSuperResIntel
      rw [h1, h2]
      rfl

/-- Witness for C8: with every vendor call failing, a fully successful
render still produces its frame. -/
theorem vendor_failure_isolated_witness :
    (render samplePriv (setVendor okEnv false false false false)).2.1 =
      (render samplePriv okEnv).2.1 ∧
    (render samplePriv okEnv).2.1 = true := by
  have h := (vendor_failure_isolated.1 samplePriv okEnv false false false false).2
  exact ⟨h, by decide⟩

/-!
Error analysis of the binary32 model.  The key facts: the exponent
search is correct, one rounding step changes a value by at most half an
ulp, hence by a relative error of at most `2 ^ (-24)`, and truncation is
the floor of the represented value.  These feed the claims about the
render-size policy's behaviour on exact-ratio targets.
-/

/-- Relative error bound of one binary32 rounding step. -/
def f32eps : ℚ := ((2 : ℚ) ^ (24 : ℕ))⁻¹

lemma f32eps_eq : f32eps = 1 / 16777216 := by norm_num [f32eps]

lemma blAux_spec : ∀ f n, n ≤ f → 1 ≤ n →
    1 ≤ blAux f n ∧ 2 ^ (blAux f n - 1) ≤ n ∧ n < 2 ^ blAux f n := by
  intro f
  induction f with
  | zero => intro n hn h1; omega
  | succ f ih =>
    intro n hn h1
    rw [blAux, if_neg (by omega)]
    by_cases h2 : n = 1
    · subst h2
      have hz : blAux f (1 / 2) = 0 := by
        cases f with
        | zero => rfl
        | succ f2 => rfl
      rw [hz]
      norm_num
    · have hge2 : 2 ≤ n := by omega
      obtain ⟨hb1, hb2, hb3⟩ := ih (n / 2) (by omega) (by omega)
      refine ⟨by omega, ?_, ?_⟩
      · have hpow : 2 ^ blAux f (n / 2) = 2 * 2 ^ (blAux f (n / 2) - 1) := by
          rw [← pow_succ']
          rw [Nat.sub_add_cancel hb1]
        calc 2 ^ (blAux f (n / 2) + 1 - 1) = 2 ^ blAux f (n / 2) := by rw [Nat.add_sub_cancel]
          _ = 2 * 2 ^ (blAux f (n / 2) - 1) := hpow
          _ ≤ n := by omega
      · have hpow : 2 ^ (blAux f (n / 2) + 1) = 2 ^ blAux f (n / 2) * 2 := by
          rw [pow_succ]
        rw [hpow]
        omega

lemma bl_spec (n : ℕ) (hn : 1 ≤ n) :
    1 ≤ bl n ∧ 2 ^ (bl n - 1) ≤ n ∧ n < 2 ^ bl n :=
  blAux_spec n n le_rfl hn

lemma le2_iff (den num : ℕ) (e : ℤ) (hden : 0 < den) :
    le2 den num e = true ↔ (2 : ℚ) ^ e ≤ (num : ℚ) / den := by
  have hdq : (0 : ℚ) < (den : ℚ) := by exact_mod_cast hden
  unfold le2
  split_ifs with he
  · rw [decide_eq_true_eq]
    have h2 : (2 : ℚ) ^ e = ((2 ^ e.toNat : ℕ) : ℚ) := by
      push_cast
      rw [← zpow_natCast (2 : ℚ) e.toNat, Int.toNat_of_nonneg he]
    rw [h2, le_div_iff hdq, mul_comm]
    constructor <;> intro h <;> exact_mod_cast h
  · push_neg at he
    have h2 : (2 : ℚ) ^ e = (((2 ^ (-e).toNat : ℕ) : ℚ))⁻¹ := by
      push_cast
      rw [← zpow_natCast (2 : ℚ) (-e).toNat, Int.toNat_of_nonneg (by omega : (0:ℤ) ≤ -e),
        ← zpow_neg, neg_neg]
    rw [decide_eq_true_eq, h2]
    have hp : (0 : ℚ) < ((2 ^ (-e).toNat : ℕ) : ℚ) := by positivity
    rw [inv_eq_one_div, div_le_div_iff hp hdq, one_mul]
    constructor <;> intro h
    · calc (den : ℚ) ≤ ((num * 2 ^ (-e).toNat : ℕ) : ℚ) := by exact_mod_cast h
        _ = (num : ℚ) * ((2 ^ (-e).toNat : ℕ) : ℚ) := by push_cast; ring
    · have : (den : ℚ) ≤ ((num * 2 ^ (-e).toNat : ℕ) : ℚ) := by
        calc (den : ℚ) ≤ (num : ℚ) * ((2 ^ (-e).toNat : ℕ) : ℚ) := h
          _ = ((num * 2 ^ (-e).toNat : ℕ) : ℚ) := by push_cast; ring
      exact_mod_cast this

lemma expo_spec (num den : ℕ) (hn : 1 ≤ num) (hd : 1 ≤ den) :
    (2 : ℚ) ^ expo num den ≤ (num : ℚ) / den ∧
    (num : ℚ) / den < 2 ^ (expo num den + 1) := by
  obtain ⟨hbn1, hbn2, hbn3⟩ := bl_spec num hn
  obtain ⟨hbd1, hbd2, hbd3⟩ := bl_spec den hd
  have hdq : (0 : ℚ) < (den : ℚ) := by exact_mod_cast hd
  have hnum_lt : (num : ℚ) < (2 : ℚ) ^ ((bl num : ℤ)) := by
    rw [zpow_natCast]
    exact_mod_cast hbn3
  have hden_ge : (2 : ℚ) ^ ((bl den : ℤ) - 1) ≤ (den : ℚ) := by
    have hc : ((2 ^ (bl den - 1) : ℕ) : ℚ) ≤ (den : ℚ) := by exact_mod_cast hbd2
    calc (2 : ℚ) ^ ((bl den : ℤ) - 1)
        = (2 : ℚ) ^ (((bl den - 1 : ℕ) : ℤ)) := by
          congr 1
          omega
      _ = ((2 ^ (bl den - 1) : ℕ) : ℚ) := by
          rw [zpow_natCast]
          push_cast
          ring
      _ ≤ (den : ℚ) := hc
  have hnum_ge : (2 : ℚ) ^ ((bl num : ℤ) - 1) ≤ (num : ℚ) := by
    have hc : ((2 ^ (bl num - 1) : ℕ) : ℚ) ≤ (num : ℚ) := by exact_mod_cast hbn2
    calc (2 : ℚ) ^ ((bl num : ℤ) - 1)
        = (2 : ℚ) ^ (((bl num - 1 : ℕ) : ℤ)) := by
          congr 1
          omega
      _ = ((2 ^ (bl num - 1) : ℕ) : ℚ) := by
          rw [zpow_natCast]
          push_cast
          ring
      _ ≤ (num : ℚ) := hc
  have hden_lt : (den : ℚ) < (2 : ℚ) ^ ((bl den : ℤ)) := by
    rw [zpow_natCast]
    exact_mod_cast hbd3
  have hupper : (num : ℚ) / den < 2 ^ ((bl num : ℤ) - (bl den : ℤ) + 1) := by
    rw [div_lt_iff hdq]
    calc (num : ℚ) < (2 : ℚ) ^ ((bl num : ℤ)) := hnum_lt
      _ = (2 : ℚ) ^ ((bl num : ℤ) - (bl den : ℤ) + 1) * (2 : ℚ) ^ ((bl den : ℤ) - 1) := by
          rw [← zpow_add₀ (two_ne_zero)]
          congr 1
          ring
      _ ≤ (2 : ℚ) ^ ((bl num : ℤ) - (bl den : ℤ) + 1) * (den : ℚ) := by
          apply mul_le_mul_of_nonneg_left hden_ge
          positivity
  have hlower : (2 : ℚ) ^ ((bl num : ℤ) - (bl den : ℤ) - 1) ≤ (num : ℚ) / den := by
    rw [le_div_iff hdq]
    calc (2 : ℚ) ^ ((bl num : ℤ) - (bl den : ℤ) - 1) * (den : ℚ)
        ≤ (2 : ℚ) ^ ((bl num : ℤ) - (bl den : ℤ) - 1) * (2 : ℚ) ^ ((bl den : ℤ)) := by
          apply mul_le_mul_of_nonneg_left (le_of_lt hden_lt)
          positivity
      _ = (2 : ℚ) ^ ((bl num : ℤ) - 1) := by
          rw [← zpow_add₀ (two_ne_zero)]
          congr 1
          ring
      _ ≤ (num : ℚ) := hnum_ge
  unfold expo
  split_ifs with hle
  · refine ⟨(le2_iff den num _ hd).1 hle, hupper⟩
  · have hnotle : ¬((2 : ℚ) ^ ((bl num : ℤ) - (bl den : ℤ)) ≤ (num : ℚ) / den) := by
      intro hcontra
      exact hle ((le2_iff den num _ hd).2 hcontra)
    push_neg at hnotle
    constructor
    · exact hlower
    · calc (num : ℚ) / den < (2 : ℚ) ^ ((bl num : ℤ) - (bl den : ℤ)) := hnotle
        _ = (2 : ℚ) ^ ((bl num : ℤ) - (bl den : ℤ) - 1 + 1) := by
            congr 1
            ring

lemma rneXD_val (num den : ℕ) (hd : 1 ≤ den) :
    ((rneX num den : ℚ) / (rneD num den : ℚ)) =
      ((num : ℚ) / den) * (2 : ℚ) ^ ((23 : ℤ) - expo num den) ∧ 1 ≤ rneD num den := by
  unfold rneX rneD
  split_ifs with hs
  · refine ⟨?_, hd⟩
    have h2 : ((2 ^ (23 - expo num den).toNat : ℕ) : ℚ) =
        (2 : ℚ) ^ ((23 : ℤ) - expo num den) := by
      push_cast
      rw [← zpow_natCast (2 : ℚ) (23 - expo num den).toNat, Int.toNat_of_nonneg hs]
    push_cast
    rw [← h2]
    push_cast
    ring
  · push_neg at hs
    constructor
    · have h2 : ((2 ^ (expo num den - 23).toNat : ℕ) : ℚ) =
          (2 : ℚ) ^ (expo num den - (23 : ℤ)) := by
        push_cast
        rw [← zpow_natCast (2 : ℚ) (expo num den - 23).toNat,
          Int.toNat_of_nonneg (by omega : (0:ℤ) ≤ expo num den - 23)]
      have hnz : ((2 ^ (expo num den - 23).toNat : ℕ) : ℚ) ≠ 0 := by positivity
      push_cast
      push_cast at h2
      rw [div_mul_eq_div_div_swap, h2, div_div,
        mul_comm ((2:ℚ) ^ (expo num den - (23:ℤ))) (den:ℚ), ← div_div,
        div_eq_mul_inv ((num:ℚ)/den), ← zpow_neg,
        show -(expo num den - (23:ℤ)) = 23 - expo num den by ring]
    · have : 1 ≤ 2 ^ (expo num den - 23).toNat := Nat.one_le_two_pow
      calc 1 ≤ den := hd
        _ ≤ den * 2 ^ (expo num den - 23).toNat := Nat.le_mul_of_pos_right den (by omega)

lemma rneM_close (num den : ℕ) (hd : 1 ≤ rneD num den) :
    |(rneM num den : ℚ) - (rneX num den : ℚ) / (rneD num den : ℚ)| ≤ 1 / 2 := by
  have hdm : rneD num den * (rneX num den / rneD num den) + rneX num den % rneD num den =
      rneX num den := Nat.div_add_mod _ _
  have hrlt : rneX num den % rneD num den < rneD num den := Nat.mod_lt _ (by omega)
  have hdq : (0 : ℚ) < (rneD num den : ℚ) := by exact_mod_cast hd
  have hsplit : (rneX num den : ℚ) / (rneD num den : ℚ) =
      ((rneX num den / rneD num den : ℕ) : ℚ) +
        ((rneX num den % rneD num den : ℕ) : ℚ) / (rneD num den : ℚ) := by
    have hx : (rneX num den : ℚ) =
        (rneD num den : ℚ) * ((rneX num den / rneD num den : ℕ) : ℚ) +
          ((rneX num den % rneD num den : ℕ) : ℚ) := by
      exact_mod_cast hdm.symm
    rw [hx, add_div, mul_div_cancel_left₀ _ (ne_of_gt hdq)]
  unfold rneM
  split_ifs with hcond
  · push_cast
    rw [hsplit, abs_le]
    have hup : (rneD num den : ℚ) ≤ 2 * ((rneX num den % rneD num den : ℕ) : ℚ) := by
      rcases hcond with h | h
      · exact_mod_cast le_of_lt h
      · exact_mod_cast le_of_eq h.1.symm
    have hfrac_le : ((rneX num den % rneD num den : ℕ) : ℚ) / (rneD num den : ℚ) ≤ 1 := by
      rw [div_le_one hdq]
      exact_mod_cast le_of_lt hrlt
    have hfrac_ge : 1 / 2 ≤ ((rneX num den % rneD num den : ℕ) : ℚ) / (rneD num den : ℚ) := by
      rw [div_le_div_iff (by norm_num) hdq]
      linarith
    constructor <;> linarith
  · push_neg at hcond
    have hdn : 2 * (rneX num den % rneD num den) ≤ rneD num den := by
      rcases Nat.lt_or_ge (2 * (rneX num den % rneD num den)) (rneD num den) with h | h
      · omega
      · omega
    rw [hsplit, abs_le]
    have hfrac_ge : (0 : ℚ) ≤ ((rneX num den % rneD num den : ℕ) : ℚ) / (rneD num den : ℚ) := by
      positivity
    have hfrac_le : ((rneX num den % rneD num den : ℕ) : ℚ) / (rneD num den : ℚ) ≤ 1 / 2 := by
      rw [div_le_div_iff hdq (by norm_num)]
      have : (2 : ℚ) * ((rneX num den % rneD num den : ℕ) : ℚ) ≤ (rneD num den : ℚ) := by
        exact_mod_cast hdn
      linarith
    constructor <;> linarith

lemma f32eps_zpow : f32eps = (2 : ℚ) ^ (-(24 : ℤ)) := by
  unfold f32eps
  rw [← zpow_natCast (2 : ℚ) 24, ← zpow_neg]
  norm_num

lemma rneF_approx (num den : ℕ) (t : ℚ) (hn : 1 ≤ num) (hd : 1 ≤ den)
    (ht : (num : ℚ) / den = t) :
    |fval (rneF num den) - t| ≤ t * f32eps ∧ 1 ≤ (rneF num den).m ∧
      0 < fval (rneF num den) := by
  subst ht
  obtain ⟨hval, hd1⟩ := rneXD_val num den hd
  have hclose := rneM_close num den hd1
  obtain ⟨hlo, hhi⟩ := expo_spec num den hn hd
  have hfval : fval (rneF num den) =
      (rneM num den : ℚ) * (2 : ℚ) ^ (expo num den - (23 : ℤ)) := rfl
  have hnum : (num : ℚ) / den =
      ((rneX num den : ℚ) / (rneD num den : ℚ)) * (2 : ℚ) ^ (expo num den - (23 : ℤ)) := by
    rw [hval, mul_assoc, ← zpow_add₀ (two_ne_zero (α := ℚ)),
      show (23 : ℤ) - expo num den + (expo num den - 23) = 0 by ring, zpow_zero, mul_one]
  have hp23 : (0 : ℚ) < (2 : ℚ) ^ (expo num den - (23 : ℤ)) := by positivity
  have hdiff : |fval (rneF num den) - (num : ℚ) / den| =
      |(rneM num den : ℚ) - (rneX num den : ℚ) / (rneD num den : ℚ)| *
        (2 : ℚ) ^ (expo num den - (23 : ℤ)) := by
    rw [hfval, hnum, ← sub_mul, abs_mul, abs_of_pos hp23]
  have hxd_ge : (2 : ℚ) ^ (23 : ℤ) ≤ (rneX num den : ℚ) / (rneD num den : ℚ) := by
    rw [hval]
    calc (2 : ℚ) ^ (23 : ℤ) = (2 : ℚ) ^ expo num den * (2 : ℚ) ^ ((23 : ℤ) - expo num den) := by
          rw [← zpow_add₀ (two_ne_zero (α := ℚ))]
          congr 1
          ring
      _ ≤ ((num : ℚ) / den) * (2 : ℚ) ^ ((23 : ℤ) - expo num den) := by
          apply mul_le_mul_of_nonneg_right hlo
          positivity
  have habs := abs_le.1 hclose
  have hm_pos : (0 : ℚ) < (rneM num den : ℚ) := by
    have h23 : (8388608 : ℚ) = (2 : ℚ) ^ (23 : ℤ) := by norm_num
    nlinarith [hxd_ge, habs.1]
  have hm1 : 1 ≤ rneM num den := by
    have : 0 < rneM num den := by exact_mod_cast hm_pos
    omega
  refine ⟨?_, hm1, ?_⟩
  · rw [hdiff]
    calc |(rneM num den : ℚ) - (rneX num den : ℚ) / (rneD num den : ℚ)| *
          (2 : ℚ) ^ (expo num den - (23 : ℤ))
        ≤ (1 / 2) * (2 : ℚ) ^ (expo num den - (23 : ℤ)) :=
          mul_le_mul_of_nonneg_right hclose (le_of_lt hp23)
      _ = (2 : ℚ) ^ (expo num den - (24 : ℤ)) := by
          rw [show expo num den - (24 : ℤ) = (expo num den - 23) + (-1) by ring,
            zpow_add₀ (two_ne_zero (α := ℚ)),
            show (2 : ℚ) ^ (-1 : ℤ) = 1 / 2 by norm_num]
          ring
      _ = (2 : ℚ) ^ expo num den * (2 : ℚ) ^ (-(24 : ℤ)) := by
          rw [← zpow_add₀ (two_ne_zero (α := ℚ))]
          congr 1
      _ ≤ ((num : ℚ) / den) * (2 : ℚ) ^ (-(24 : ℤ)) := by
          apply mul_le_mul_of_nonneg_right hlo
          positivity
      _ = ((num : ℚ) / den) * f32eps := by rw [f32eps_zpow]
  · rw [hfval]
    exact mul_pos hm_pos hp23

lemma i2f_approx (n : ℕ) (hn : 1 ≤ n) :
    |fval (i2f n) - n| ≤ (n : ℚ) * f32eps ∧ 1 ≤ (i2f n).m ∧ 0 < fval (i2f n) :=
  rneF_approx n 1 n hn le_rfl (by norm_num)

lemma fdiv_approx (x y : F32) (hx : 1 ≤ x.m) (hy : 1 ≤ y.m) :
    |fval (fdiv x y) - fval x / fval y| ≤ (fval x / fval y) * f32eps ∧
      1 ≤ (fdiv x y).m ∧ 0 < fval (fdiv x y) := by
  unfold fdiv
  split_ifs with hc
  · refine rneF_approx _ _ _ ?_ hy ?_
    · calc 1 = 1 * 1 := rfl
        _ ≤ x.m * 2 ^ (x.e - y.e).toNat := Nat.mul_le_mul hx Nat.one_le_two_pow
    · unfold fval
      have hk : ((2 ^ (x.e - y.e).toNat : ℕ) : ℚ) = (2 : ℚ) ^ (x.e - y.e) := by
        push_cast
        rw [← zpow_natCast (2 : ℚ) (x.e - y.e).toNat, Int.toNat_of_nonneg hc]
      push_cast
      push_cast at hk
      rw [hk, mul_div_mul_comm, ← zpow_sub₀ (two_ne_zero (α := ℚ)),
        show x.e - 23 - (y.e - 23) = x.e - y.e by ring, mul_div_right_comm]
  · push_neg at hc
    refine rneF_approx _ _ _ hx ?_ ?_
    · calc 1 = 1 * 1 := rfl
        _ ≤ y.m * 2 ^ (y.e - x.e).toNat := Nat.mul_le_mul hy Nat.one_le_two_pow
    · unfold fval
      have hk : ((2 ^ (y.e - x.e).toNat : ℕ) : ℚ) = (2 : ℚ) ^ (y.e - x.e) := by
        push_cast
        rw [← zpow_natCast (2 : ℚ) (y.e - x.e).toNat,
          Int.toNat_of_nonneg (by omega : (0:ℤ) ≤ y.e - x.e)]
      push_cast
      push_cast at hk
      rw [hk, mul_div_mul_comm, ← zpow_sub₀ (two_ne_zero (α := ℚ)),
        show x.e - 23 - (y.e - 23) = x.e - y.e by ring]
      rw [show (x.e : ℤ) - y.e = -(y.e - x.e) by ring, zpow_neg, div_eq_mul_inv,
        mul_inv]
      ring

lemma fmul_approx (x y : F32) (hx : 1 ≤ x.m) (hy : 1 ≤ y.m) :
    |fval (fmul x y) - fval x * fval y| ≤ (fval x * fval y) * f32eps ∧
      1 ≤ (fmul x y).m ∧ 0 < fval (fmul x y) := by
  unfold fmul
  split_ifs with hc
  · refine rneF_approx _ _ _ ?_ le_rfl ?_
    · calc 1 = 1 * 1 := rfl
        _ ≤ x.m * y.m * 2 ^ (x.e + y.e - 46).toNat :=
          Nat.mul_le_mul (Nat.mul_le_mul hx hy) Nat.one_le_two_pow
    · unfold fval
      have hk : ((2 ^ (x.e + y.e - 46).toNat : ℕ) : ℚ) = (2 : ℚ) ^ (x.e + y.e - 46) := by
        push_cast
        rw [← zpow_natCast (2 : ℚ) (x.e + y.e - 46).toNat, Int.toNat_of_nonneg hc]
      push_cast
      push_cast at hk
      rw [hk, div_one]
      rw [show (x.m : ℚ) * (2:ℚ) ^ (x.e - (23:ℤ)) * ((y.m : ℚ) * (2:ℚ) ^ (y.e - (23:ℤ))) =
        (x.m : ℚ) * (y.m : ℚ) * ((2:ℚ) ^ (x.e - (23:ℤ)) * (2:ℚ) ^ (y.e - (23:ℤ))) by ring,
        ← zpow_add₀ (two_ne_zero (α := ℚ)),
        show x.e - (23:ℤ) + (y.e - 23) = x.e + y.e - 46 by ring]
  · push_neg at hc
    refine rneF_approx _ _ _ (Nat.mul_le_mul hx hy) Nat.one_le_two_pow ?_
    · unfold fval
      have hk : ((2 ^ (46 - x.e - y.e).toNat : ℕ) : ℚ) = (2 : ℚ) ^ (46 - x.e - y.e) := by
        push_cast
        rw [← zpow_natCast (2 : ℚ) (46 - x.e - y.e).toNat,
          Int.toNat_of_nonneg (by omega : (0:ℤ) ≤ 46 - x.e - y.e)]
      push_cast
      push_cast at hk
      rw [hk]
      rw [show (x.m : ℚ) * (2:ℚ) ^ (x.e - (23:ℤ)) * ((y.m : ℚ) * (2:ℚ) ^ (y.e - (23:ℤ))) =
        (x.m : ℚ) * (y.m : ℚ) * ((2:ℚ) ^ (x.e - (23:ℤ)) * (2:ℚ) ^ (y.e - (23:ℤ))) by ring,
        ← zpow_add₀ (two_ne_zero (α := ℚ)),
        show x.e - (23:ℤ) + (y.e - 23) = x.e + y.e - 46 by ring,
        show (x.e : ℤ) + y.e - 46 = -(46 - x.e - y.e) by ring, zpow_neg, div_eq_mul_inv]

lemma ftrunc_le (f : F32) :
    ((ftrunc f : ℕ) : ℚ) ≤ fval f ∧ fval f < ((ftrunc f : ℕ) : ℚ) + 1 := by
  unfold ftrunc fval
  split_ifs with h
  · have hk : ((2 ^ (f.e - 23).toNat : ℕ) : ℚ) = (2 : ℚ) ^ (f.e - (23 : ℤ)) := by
      push_cast
      rw [← zpow_natCast (2 : ℚ) (f.e - 23).toNat, Int.toNat_of_nonneg h]
    push_cast at hk ⊢
    rw [← hk]
    constructor
    · exact le_rfl
    · exact lt_add_one _
  · push_neg at h
    have ht : 0 < 2 ^ (23 - f.e).toNat := Nat.pos_pow_of_pos _ (by norm_num)
    have hdm : 2 ^ (23 - f.e).toNat * (f.m / 2 ^ (23 - f.e).toNat) +
        f.m % 2 ^ (23 - f.e).toNat = f.m := Nat.div_add_mod _ _
    have hmlt : f.m % 2 ^ (23 - f.e).toNat < 2 ^ (23 - f.e).toNat := Nat.mod_lt _ ht
    have hk : ((2 ^ (23 - f.e).toNat : ℕ) : ℚ) = (2 : ℚ) ^ ((23 : ℤ) - f.e) := by
      push_cast
      rw [← zpow_natCast (2 : ℚ) (23 - f.e).toNat,
        Int.toNat_of_nonneg (by omega : (0:ℤ) ≤ 23 - f.e)]
    have hzq : (2 : ℚ) ^ (f.e - (23 : ℤ)) = (((2 ^ (23 - f.e).toNat : ℕ) : ℚ))⁻¹ := by
      rw [hk, ← zpow_neg]
      congr 1
      ring
    have htq : (0 : ℚ) < ((2 ^ (23 - f.e).toNat : ℕ) : ℚ) := by exact_mod_cast ht
    rw [hzq, ← div_eq_mul_inv]
    constructor
    · rw [le_div_iff₀ htq]
      have := Nat.div_mul_le_self f.m (2 ^ (23 - f.e).toNat)
      exact_mod_cast this
    · rw [div_lt_iff₀ htq]
      have hlt : f.m < (f.m / 2 ^ (23 - f.e).toNat + 1) * 2 ^ (23 - f.e).toNat := by
        have h1 := hdm
        have h2 := hmlt
        nlinarith [h1, h2]
      exact_mod_cast hlt

lemma approx_bounds {v t : ℚ} (h : |v - t| ≤ t * f32eps) :
    t * (1 - f32eps) ≤ v ∧ v ≤ t * (1 + f32eps) := by
  have h2 := abs_le.1 h
  constructor <;> nlinarith [h2.1, h2.2]

lemma approx_mul {v t b : ℚ} (hb : 0 < b) (h : |v - t / b| ≤ (t / b) * f32eps) :
    t * (1 - f32eps) ≤ v * b ∧ v * b ≤ t * (1 + f32eps) := by
  have h2 := abs_le.1 h
  have hdb : (t / b) * b = t := div_mul_cancel₀ t (ne_of_gt hb)
  have hexp : (v - t / b) * b = v * b - t := by rw [sub_mul, hdb]
  have hexp2 : (t / b * f32eps) * b = t * f32eps := by rw [mul_right_comm, hdb]
  constructor
  · have h3 := mul_le_mul_of_nonneg_right h2.1 (le_of_lt hb)
    rw [hexp, neg_mul, hexp2] at h3
    linarith
  · have h3 := mul_le_mul_of_nonneg_right h2.2 (le_of_lt hb)
    rw [hexp, hexp2] at h3
    linarith

lemma fchain_bounds (iw ih ww : ℕ) (h1 : 1 ≤ iw) (h2 : 1 ≤ ih) (h3 : 1 ≤ ww) :
    ((ww : ℚ) * ih) * (1 - f32eps) ^ 3 ≤
      fval (fdiv (i2f ww) (fdiv (i2f iw) (i2f ih))) * iw * (1 + f32eps) ^ 2 ∧
    fval (fdiv (i2f ww) (fdiv (i2f iw) (i2f ih))) * iw * (1 - f32eps) ^ 2 ≤
      ((ww : ℚ) * ih) * (1 + f32eps) ^ 3 := by
  obtain ⟨hA, hAm, hApos⟩ := i2f_approx iw h1
  obtain ⟨hB, hBm, hBpos⟩ := i2f_approx ih h2
  obtain ⟨hC, hCm, hCpos⟩ := i2f_approx ww h3
  obtain ⟨ha, ham, hapos⟩ := fdiv_approx (i2f iw) (i2f ih) hAm hBm
  obtain ⟨hQ, hQm, hQpos⟩ := fdiv_approx (i2f ww) (fdiv (i2f iw) (i2f ih)) hCm ham
  set A := fval (i2f iw) with hsA
  set B := fval (i2f ih) with hsB
  set C := fval (i2f ww) with hsC
  set a := fval (fdiv (i2f iw) (i2f ih)) with hsa
  set Q := fval (fdiv (i2f ww) (fdiv (i2f iw) (i2f ih))) with hsQ
  have heps1 : (0 : ℚ) < 1 - f32eps := by rw [f32eps_eq]; norm_num
  have heps2 : (0 : ℚ) < 1 + f32eps := by rw [f32eps_eq]; norm_num
  obtain ⟨hA_lo, hA_up⟩ := approx_bounds hA
  obtain ⟨hB_lo, hB_up⟩ := approx_bounds hB
  obtain ⟨hC_lo, hC_up⟩ := approx_bounds hC
  obtain ⟨haB_lo, haB_up⟩ := approx_mul hBpos ha
  obtain ⟨hQa_lo, hQa_up⟩ := approx_mul hapos hQ
  have hQnn : (0 : ℚ) ≤ Q := le_of_lt hQpos
  have hBnn : (0 : ℚ) ≤ B := le_of_lt hBpos
  have hiwnn : (0 : ℚ) ≤ (iw : ℚ) := by positivity
  have hihnn : (0 : ℚ) ≤ (ih : ℚ) := by positivity
  have hwwnn : (0 : ℚ) ≤ (ww : ℚ) := by positivity
  constructor
  · calc ((ww : ℚ) * ih) * (1 - f32eps) ^ 3
        = (((ww : ℚ) * (1 - f32eps)) * ((ih : ℚ) * (1 - f32eps))) * (1 - f32eps) := by ring
      _ ≤ (C * B) * (1 - f32eps) := by
          apply mul_le_mul_of_nonneg_right _ (le_of_lt heps1)
          exact mul_le_mul hC_lo hB_lo (by positivity) (le_of_lt hCpos)
      _ = (C * (1 - f32eps)) * B := by ring
      _ ≤ (Q * a) * B := mul_le_mul_of_nonneg_right hQa_lo hBnn
      _ = Q * (a * B) := by ring
      _ ≤ Q * (A * (1 + f32eps)) := mul_le_mul_of_nonneg_left haB_up hQnn
      _ = (Q * A) * (1 + f32eps) := by ring
      _ ≤ (Q * ((iw : ℚ) * (1 + f32eps))) * (1 + f32eps) := by
          apply mul_le_mul_of_nonneg_right _ (le_of_lt heps2)
          exact mul_le_mul_of_nonneg_left hA_up hQnn
      _ = Q * iw * (1 + f32eps) ^ 2 := by ring
  · calc Q * iw * (1 - f32eps) ^ 2
        = (Q * ((iw : ℚ) * (1 - f32eps))) * (1 - f32eps) := by ring
      _ ≤ (Q * A) * (1 - f32eps) := by
          apply mul_le_mul_of_nonneg_right _ (le_of_lt heps1)
          exact mul_le_mul_of_nonneg_left hA_lo hQnn
      _ = Q * (A * (1 - f32eps)) := by ring
      _ ≤ Q * (a * B) := mul_le_mul_of_nonneg_left haB_lo hQnn
      _ = (Q * a) * B := by ring
      _ ≤ (C * (1 + f32eps)) * B := mul_le_mul_of_nonneg_right hQa_up hBnn
      _ ≤ ((ww : ℚ) * (1 + f32eps) * (1 + f32eps)) * ((ih : ℚ) * (1 + f32eps)) := by
          apply mul_le_mul _ hB_up hBnn (by positivity)
          exact mul_le_mul_of_nonneg_right hC_up (le_of_lt heps2)
      _ = ((ww : ℚ) * ih) * (1 + f32eps) ^ 3 := by ring

lemma get_render_size_multiple (k w h : ℕ) (hk2 : 2 ≤ k) (hk3 : k ≤ 3)
    (hw : 1 ≤ w) (hh : 1 ≤ h) (hwB : w ≤ 65536) (hhB : h ≤ 65536) :
    (get_render_size w h (k * w) (k * h)).1 = k * w ∧
    ((get_render_size w h (k * w) (k * h)).2 = k * h ∨
      (get_render_size w h (k * w) (k * h)).2 = k * h - 1) := by
  have hkw1 : 1 ≤ k * w := Nat.one_le_iff_ne_zero.2 (Nat.mul_ne_zero (by omega) (by omega))
  obtain ⟨hQlo, hQhi⟩ := fchain_bounds w h (k * w) hw hh hkw1
  set Q := fval (fdiv (i2f (k * w)) (fdiv (i2f w) (i2f h))) with hsQ
  have hwq : (0 : ℚ) < (w : ℚ) := by exact_mod_cast hw
  have heps1 : (0 : ℚ) < 1 - f32eps := by rw [f32eps_eq]; norm_num
  have heps2 : (0 : ℚ) < 1 + f32eps := by rw [f32eps_eq]; norm_num
  have hcast : ((k * w : ℕ) : ℚ) * (h : ℚ) = ((k * h : ℕ) : ℚ) * (w : ℚ) := by
    push_cast
    ring
  have hm_le : ((k * h : ℕ) : ℚ) ≤ 196608 := by
    have : k * h ≤ 3 * 65536 := Nat.mul_le_mul hk3 hhB
    exact_mod_cast this
  have hm_ge : (2 : ℚ) ≤ ((k * h : ℕ) : ℚ) := by
    have : 2 * 1 ≤ k * h := Nat.mul_le_mul hk2 hh
    exact_mod_cast this
  have hup : Q < ((k * h : ℕ) : ℚ) + 1 := by
    have hnum : ((k * h : ℕ) : ℚ) * (1 + f32eps) ^ 3 <
        (((k * h : ℕ) : ℚ) + 1) * (1 - f32eps) ^ 2 := by
      rw [f32eps_eq]
      ring_nf
      linarith [hm_le, hm_ge]
    have hchain : Q * w * (1 - f32eps) ^ 2 ≤ ((k * h : ℕ) : ℚ) * (w : ℚ) * (1 + f32eps) ^ 3 := by
      calc Q * w * (1 - f32eps) ^ 2 ≤ ((k * w : ℕ) : ℚ) * (h : ℚ) * (1 + f32eps) ^ 3 := hQhi
        _ = ((k * h : ℕ) : ℚ) * (w : ℚ) * (1 + f32eps) ^ 3 := by rw [hcast]
    have hfinal : Q * w * (1 - f32eps) ^ 2 < (((k * h : ℕ) : ℚ) + 1) * (w : ℚ) * (1 - f32eps) ^ 2 := by
      calc Q * w * (1 - f32eps) ^ 2
          ≤ ((k * h : ℕ) : ℚ) * (w : ℚ) * (1 + f32eps) ^ 3 := hchain
        _ = (((k * h : ℕ) : ℚ) * (1 + f32eps) ^ 3) * (w : ℚ) := by ring
        _ < ((((k * h : ℕ) : ℚ) + 1) * (1 - f32eps) ^ 2) * (w : ℚ) :=
            (mul_lt_mul_right hwq).2 hnum
        _ = (((k * h : ℕ) : ℚ) + 1) * (w : ℚ) * (1 - f32eps) ^ 2 := by ring
    have := lt_of_mul_lt_mul_right (lt_of_mul_lt_mul_right
      (by calc Q * (w : ℚ) * (1 - f32eps) ^ 2 < _ := hfinal
            _ = (((k * h : ℕ) : ℚ) + 1) * (w : ℚ) * (1 - f32eps) ^ 2 := rfl)
      (by positivity : (0:ℚ) ≤ (1 - f32eps) ^ 2)) (le_of_lt hwq)
    exact this
  have hlo : ((k * h : ℕ) : ℚ) - 1 < Q := by
    have hnum : (((k * h : ℕ) : ℚ) - 1) * (1 + f32eps) ^ 2 <
        ((k * h : ℕ) : ℚ) * (1 - f32eps) ^ 3 := by
      rw [f32eps_eq]
      ring_nf
      linarith [hm_le, hm_ge]
    have hchain : ((k * h : ℕ) : ℚ) * (w : ℚ) * (1 - f32eps) ^ 3 ≤ Q * w * (1 + f32eps) ^ 2 := by
      calc ((k * h : ℕ) : ℚ) * (w : ℚ) * (1 - f32eps) ^ 3
          = ((k * w : ℕ) : ℚ) * (h : ℚ) * (1 - f32eps) ^ 3 := by rw [hcast]
        _ ≤ Q * w * (1 + f32eps) ^ 2 := hQlo
    have hfinal : (((k * h : ℕ) : ℚ) - 1) * (w : ℚ) * (1 + f32eps) ^ 2 <
        Q * (w : ℚ) * (1 + f32eps) ^ 2 := by
      calc (((k * h : ℕ) : ℚ) - 1) * (w : ℚ) * (1 + f32eps) ^ 2
          = ((((k * h : ℕ) : ℚ) - 1) * (1 + f32eps) ^ 2) * (w : ℚ) := by ring
        _ < (((k * h : ℕ) : ℚ) * (1 - f32eps) ^ 3) * (w : ℚ) := (mul_lt_mul_right hwq).2 hnum
        _ = ((k * h : ℕ) : ℚ) * (w : ℚ) * (1 - f32eps) ^ 3 := by ring
        _ ≤ Q * (w : ℚ) * (1 + f32eps) ^ 2 := hchain
    have h2 := lt_of_mul_lt_mul_right hfinal (by positivity : (0:ℚ) ≤ (1 + f32eps) ^ 2)
    exact lt_of_mul_lt_mul_right h2 (le_of_lt hwq)
  obtain ⟨htr_le, htr_lt⟩ := ftrunc_le (fdiv (i2f (k * w)) (fdiv (i2f w) (i2f h)))
  set oh := ftrunc (fdiv (i2f (k * w)) (fdiv (i2f w) (i2f h))) with hsoh
  have hoh_le : oh ≤ k * h := by
    have : (oh : ℚ) < ((k * h : ℕ) : ℚ) + 1 := lt_of_le_of_lt htr_le hup
    exact_mod_cast (by exact_mod_cast Nat.lt_succ_iff.1 (by exact_mod_cast
      (show (oh : ℚ) < ((k * h + 1 : ℕ) : ℚ) by push_cast; push_cast at this; linarith)))
  have hoh_ge : k * h - 1 ≤ oh := by
    have h2 : ((k * h : ℕ) : ℚ) - 1 < (oh : ℚ) + 1 := lt_trans hlo htr_lt
    have h3 : ((k * h : ℕ) : ℚ) < (oh : ℚ) + 2 := by linarith
    have h4 : k * h < oh + 2 := by exact_mod_cast h3
    omega
  have hguard1 : ¬(k * w < w ∨ k * h < h) := by
    push_neg
    exact ⟨Nat.le_mul_of_pos_left w (by omega), Nat.le_mul_of_pos_left h (by omega)⟩
  have hguard2 : ¬(k * h < oh) := by omega
  unfold get_render_size
  rw [if_neg hguard1]
  dsimp only
  rw [if_neg hguard2]
  exact ⟨rfl, by omega⟩

/-- A concrete filter state in Intel mode with the relative 2X scale
target. -/
def x2Priv : Priv :=
  ⟨Mode.intel, Scale.x2, sampleParams, sampleParams, 0, 0, 0, false, false, []⟩

/-- Counterexample to C10 as stated: at scale 2X, a reinit to the
even-dimension frame 2x14 computes output parameters 4x27, not
(2*2, 2*14) = 4x28 — the single-precision aspect-ratio rounding makes
the truncated height fall one short of double. -/
theorem scale_multiplier_cex :
    (applyReinit x2Priv ⟨2, 14, 0, 5⟩).1.out_params.w = 4 ∧
    (applyReinit x2Priv ⟨2, 14, 0, 5⟩).1.out_params.h = 27 ∧
    (27 : ℕ) ≠ 2 * 14 ∧ (2 : ℕ) % 2 = 0 ∧ (14 : ℕ) % 2 = 0 := by decide

/-- The amended claim of C10: for every reinit frame with even positive
dimensions (up to 65536), when the scale option is 2X (respectively 3X)
the resolved target is exactly (2 inputW, 2 inputH) (respectively 3X),
the no-downscale branch and the height clamp are not taken, and the
computed output parameters are (k inputW, outH) in the forced NV12
format, where outH is k inputH or falls one short of it (truncation of
the single-precision computation); exact doubling does not hold in
general. -/
theorem scale_multiplier_output (p : Priv) (newP : Params) (k : ℕ)
    (hm : p.mode ≠ Mode.off)
    (hk : (p.scale = Scale.x2 ∧ k = 2) ∨ (p.scale = Scale.x3 ∧ k = 3))
    (hw : 1 ≤ newP.w) (hh : 1 ≤ newP.h) (hwB : newP.w ≤ 65536) (hhB : newP.h ≤ 65536)
    (hwe : newP.w % 2 = 0) (hhe : newP.h % 2 = 0) :
    scaleTarget p.scale newP.w newP.h = (k * newP.w, k * newP.h) ∧
    (applyReinit p newP).1.out_params.w = k * newP.w ∧
    ((applyReinit p newP).1.out_params.h = k * newP.h ∨
      (applyReinit p newP).1.out_params.h = k * newP.h - 1) ∧
    (applyReinit p newP).1.out_params.hw_subfmt = IMGFMT_NV12 := by
  have hk23 : 2 ≤ k ∧ k ≤ 3 := by rcases hk with ⟨_, hkv⟩ | ⟨_, hkv⟩ <;> omega
  have hst : scaleTarget p.scale newP.w newP.h = (k * newP.w, k * newP.h) := by
    rcases hk with ⟨hs, hkv⟩ | ⟨hs, hkv⟩ <;> subst hkv <;> rw [hs] <;> rfl
  have hgrs := get_render_size_multiple k newP.w newP.h hk23.1 hk23.2 hw hh hwB hhB
  have happ : (applyReinit p newP).1.out_params =
      { newP with
          w := (get_render_size newP.w newP.h (scaleTarget p.scale newP.w newP.h).1
                  (scaleTarget p.scale newP.w newP.h).2).1,
          h := (get_render_size newP.w newP.h (scaleTarget p.scale newP.w newP.h).1
                  (scaleTarget p.scale newP.w newP.h).2).2,
          hw_subfmt := IMGFMT_NV12 } := by
    unfold applyReinit
    rw [if_pos hm]
  rw [happ, hst]
  exact ⟨rfl, hgrs.1, hgrs.2, rfl⟩

/-- Witness for C10 (amended): a 2X reinit on a 1280x720 frame. -/
theorem scale_multiplier_output_witness :
    scaleTarget x2Priv.scale 1280 720 = (2 * 1280, 2 * 720) ∧
    (applyReinit x2Priv ⟨1280, 720, 0, 7⟩).1.out_params.w = 2 * 1280 ∧
    ((applyReinit x2Priv ⟨1280, 720, 0, 7⟩).1.out_params.h = 2 * 720 ∨
      (applyReinit x2Priv ⟨1280, 720, 0, 7⟩).1.out_params.h = 2 * 720 - 1) := by
  have h := scale_multiplier_output x2Priv ⟨1280, 720, 0, 7⟩ 2 (by decide)
    (Or.inl ⟨rfl, rfl⟩) (by decide) (by decide) (by decide) (by decide) (by decide) (by decide)
  exact ⟨h.1, h.2.1, h.2.2.1⟩

lemma fchain2_bounds (iw ih wh : ℕ) (h1 : 1 ≤ iw) (h2 : 1 ≤ ih) (h3 : 1 ≤ wh) :
    ((wh : ℚ) * iw) * (1 - f32eps) ^ 4 ≤
      fval (fmul (i2f wh) (fdiv (i2f iw) (i2f ih))) * ih * (1 + f32eps) ∧
    fval (fmul (i2f wh) (fdiv (i2f iw) (i2f ih))) * ih * (1 - f32eps) ≤
      ((wh : ℚ) * iw) * (1 + f32eps) ^ 4 := by
  obtain ⟨hA, hAm, hApos⟩ := i2f_approx iw h1
  obtain ⟨hB, hBm, hBpos⟩ := i2f_approx ih h2
  obtain ⟨hD, hDm, hDpos⟩ := i2f_approx wh h3
  obtain ⟨ha, ham, hapos⟩ := fdiv_approx (i2f iw) (i2f ih) hAm hBm
  obtain ⟨hW, hWm, hWpos⟩ := fmul_approx (i2f wh) (fdiv (i2f iw) (i2f ih)) hDm ham
  set A := fval (i2f iw) with hsA
  set B := fval (i2f ih) with hsB
  set D := fval (i2f wh) with hsD
  set a := fval (fdiv (i2f iw) (i2f ih)) with hsa
  set W := fval (fmul (i2f wh) (fdiv (i2f iw) (i2f ih))) with hsW
  have heps1 : (0 : ℚ) < 1 - f32eps := by rw [f32eps_eq]; norm_num
  have heps2 : (0 : ℚ) < 1 + f32eps := by rw [f32eps_eq]; norm_num
  obtain ⟨hA_lo, hA_up⟩ := approx_bounds hA
  obtain ⟨hB_lo, hB_up⟩ := approx_bounds hB
  obtain ⟨hD_lo, hD_up⟩ := approx_bounds hD
  obtain ⟨haB_lo, haB_up⟩ := approx_mul hBpos ha
  obtain ⟨hW_lo, hW_up⟩ := approx_bounds hW
  have hann : (0 : ℚ) ≤ a := le_of_lt hapos
  have hDnn : (0 : ℚ) ≤ D := le_of_lt hDpos
  have hihnn : (0 : ℚ) ≤ (ih : ℚ) := by positivity
  constructor
  · calc ((wh : ℚ) * iw) * (1 - f32eps) ^ 4
        = ((wh : ℚ) * (1 - f32eps)) * ((iw : ℚ) * (1 - f32eps)) *
            ((1 - f32eps) * (1 - f32eps)) := by ring
      _ ≤ D * A * ((1 - f32eps) * (1 - f32eps)) := by
          apply mul_le_mul_of_nonneg_right _ (by positivity)
          exact mul_le_mul hD_lo hA_lo (by positivity) hDnn
      _ = (D * (1 - f32eps)) * (A * (1 - f32eps)) := by ring
      _ ≤ (D * (1 - f32eps)) * (a * B) := by
          apply mul_le_mul_of_nonneg_left haB_lo
          positivity
      _ ≤ (D * (1 - f32eps)) * (a * ((ih : ℚ) * (1 + f32eps))) := by
          apply mul_le_mul_of_nonneg_left _ (by positivity)
          exact mul_le_mul_of_nonneg_left hB_up hann
      _ = ((D * a) * (1 - f32eps)) * ih * (1 + f32eps) := by ring
      _ ≤ W * ih * (1 + f32eps) := by
          apply mul_le_mul_of_nonneg_right _ (le_of_lt heps2)
          exact mul_le_mul_of_nonneg_right hW_lo hihnn
  · calc W * ih * (1 - f32eps)
        ≤ ((D * a) * (1 + f32eps)) * ih * (1 - f32eps) := by
          apply mul_le_mul_of_nonneg_right _ (le_of_lt heps1)
          exact mul_le_mul_of_nonneg_right hW_up hihnn
      _ = (D * (1 + f32eps)) * (a * ((ih : ℚ) * (1 - f32eps))) := by ring
      _ ≤ (D * (1 + f32eps)) * (a * B) := by
          apply mul_le_mul_of_nonneg_left _ (by positivity)
          exact mul_le_mul_of_nonneg_left hB_lo hann
      _ ≤ (D * (1 + f32eps)) * (A * (1 + f32eps)) := by
          apply mul_le_mul_of_nonneg_left haB_up (by positivity)
      _ ≤ (((wh : ℚ) * (1 + f32eps)) * (1 + f32eps)) *
            (((iw : ℚ) * (1 + f32eps)) * (1 + f32eps)) := by
          apply mul_le_mul
          · exact mul_le_mul_of_nonneg_right hD_up (le_of_lt heps2)
          · exact mul_le_mul_of_nonneg_right hA_up (le_of_lt heps2)
          · positivity
          · positivity
      _ = ((wh : ℚ) * iw) * (1 + f32eps) ^ 4 := by ring

lemma trunc_floor_close (f : F32) (X : ℚ) (h : |fval f - X| < 1) :
    (((ftrunc f : ℕ) : ℤ) - ⌊X⌋).natAbs ≤ 1 := by
  obtain ⟨h1, h2⟩ := ftrunc_le f
  have hfl := Int.floor_le X
  have hfl2 := Int.lt_floor_add_one X
  have habs := abs_lt.1 h
  have hup : ((ftrunc f : ℕ) : ℚ) < ((⌊X⌋ : ℚ)) + 2 := by linarith
  have hdn : ((⌊X⌋ : ℚ)) < ((ftrunc f : ℕ) : ℚ) + 2 := by linarith
  have hupz : ((ftrunc f : ℕ) : ℤ) < ⌊X⌋ + 2 := by exact_mod_cast hup
  have hdnz : ⌊X⌋ < ((ftrunc f : ℕ) : ℤ) + 2 := by exact_mod_cast hdn
  omega

lemma pm1_numeric {Q X : ℚ} (hU : Q * (1 - f32eps) ^ 2 ≤ X * (1 + f32eps) ^ 3)
    (hL : X * (1 - f32eps) ^ 3 ≤ Q * (1 + f32eps) ^ 2)
    (hQb : Q < 1048577) (hQ0 : 0 ≤ Q) (hX0 : 0 ≤ X) : |Q - X| < 1 := by
  have hX_le : X ≤ 1048578 := by
    rw [f32eps_eq] at hL
    ring_nf at hL
    linarith
  rw [abs_lt]
  rw [f32eps_eq] at hU hL
  ring_nf at hU hL
  constructor <;> linarith

lemma pm1_numeric2 {W Y : ℚ} (hW1 : W * (1 - f32eps) ≤ Y * (1 + f32eps) ^ 4)
    (hW2 : Y * (1 - f32eps) ^ 4 ≤ W * (1 + f32eps))
    (hY_le : Y ≤ 1048578) (hY0 : 0 ≤ Y) (hW0 : 0 ≤ W) : |W - Y| < 1 := by
  rw [abs_lt]
  rw [f32eps_eq] at hW1 hW2
  ring_nf at hW1 hW2
  constructor <;> linarith

lemma Ycan_le {Y : ℚ} (hYcan : Y * (1 - f32eps) ^ 2 < 1048576 * (1 + f32eps) ^ 3) :
    Y ≤ 1048578 := by
  rw [f32eps_eq] at hYcan
  ring_nf at hYcan
  linarith

lemma renderH_pm1 (iw ih ww wh : ℕ) (h1 : 1 ≤ iw) (h2 : 1 ≤ ih)
    (h3 : iw ≤ ww) (h4 : ih ≤ wh) (h5 : ww ≤ 1048576) (h6 : wh ≤ 1048576)
    (hnc : ftrunc (fdiv (i2f ww) (fdiv (i2f iw) (i2f ih))) ≤ wh) :
    (((ftrunc (fdiv (i2f ww) (fdiv (i2f iw) (i2f ih))) : ℕ) : ℤ) -
      ⌊((ww * ih : ℕ) : ℚ) / iw⌋).natAbs ≤ 1 := by
  have h1w : 1 ≤ ww := le_trans h1 h3
  obtain ⟨hQlo, hQhi⟩ := fchain_bounds iw ih ww h1 h2 h1w
  obtain ⟨htr_le, htr_lt⟩ := ftrunc_le (fdiv (i2f ww) (fdiv (i2f iw) (i2f ih)))
  set Q := fval (fdiv (i2f ww) (fdiv (i2f iw) (i2f ih))) with hsQ
  set oh := ftrunc (fdiv (i2f ww) (fdiv (i2f iw) (i2f ih))) with hsoh
  set X := ((ww * ih : ℕ) : ℚ) / (iw : ℚ) with hsX
  have hiwq : (0 : ℚ) < (iw : ℚ) := by exact_mod_cast h1
  have hXiw : X * (iw : ℚ) = ((ww * ih : ℕ) : ℚ) :=
    div_mul_cancel₀ _ (ne_of_gt hiwq)
  have hU : Q * (1 - f32eps) ^ 2 ≤ X * (1 + f32eps) ^ 3 := by
    apply le_of_mul_le_mul_right _ hiwq
    calc Q * (1 - f32eps) ^ 2 * (iw : ℚ) = Q * iw * (1 - f32eps) ^ 2 := by ring
      _ ≤ ((ww * ih : ℕ) : ℚ) * (1 + f32eps) ^ 3 := by
          calc Q * iw * (1 - f32eps) ^ 2 ≤ ((ww : ℚ) * ih) * (1 + f32eps) ^ 3 := hQhi
            _ = ((ww * ih : ℕ) : ℚ) * (1 + f32eps) ^ 3 := by push_cast; ring
      _ = X * (1 + f32eps) ^ 3 * (iw : ℚ) := by rw [← hXiw]; ring
  have hL : X * (1 - f32eps) ^ 3 ≤ Q * (1 + f32eps) ^ 2 := by
    apply le_of_mul_le_mul_right _ hiwq
    calc X * (1 - f32eps) ^ 3 * (iw : ℚ) = X * (iw : ℚ) * (1 - f32eps) ^ 3 := by ring
      _ = ((ww * ih : ℕ) : ℚ) * (1 - f32eps) ^ 3 := by rw [hXiw]
      _ = ((ww : ℚ) * ih) * (1 - f32eps) ^ 3 := by push_cast; ring
      _ ≤ Q * iw * (1 + f32eps) ^ 2 := hQlo
      _ = Q * (1 + f32eps) ^ 2 * (iw : ℚ) := by ring
  have hohwh : ((oh : ℕ) : ℚ) ≤ (wh : ℚ) := by exact_mod_cast hnc
  have hwhb : (wh : ℚ) ≤ 1048576 := by exact_mod_cast h6
  have hQb : Q < 1048577 := by linarith
  have hQ0 : (0 : ℚ) ≤ Q := le_trans (by positivity) htr_le
  have hX0 : (0 : ℚ) ≤ X := by positivity
  exact trunc_floor_close _ X (pm1_numeric hU hL hQb hQ0 hX0)

lemma renderW_pm1 (iw ih ww wh : ℕ) (h1 : 1 ≤ iw) (h2 : 1 ≤ ih)
    (h3 : iw ≤ ww) (h4 : ih ≤ wh) (h5 : ww ≤ 1048576) (h6 : wh ≤ 1048576)
    (hcl : wh < ftrunc (fdiv (i2f ww) (fdiv (i2f iw) (i2f ih)))) :
    (((ftrunc (fmul (i2f wh) (fdiv (i2f iw) (i2f ih))) : ℕ) : ℤ) -
      ⌊((wh * iw : ℕ) : ℚ) / ih⌋).natAbs ≤ 1 := by
  have h1w : 1 ≤ ww := le_trans h1 h3
  have h2h : 1 ≤ wh := le_trans h2 h4
  obtain ⟨hQlo, hQhi⟩ := fchain_bounds iw ih ww h1 h2 h1w
  obtain ⟨hWlo, hWhi⟩ := fchain2_bounds iw ih wh h1 h2 h2h
  obtain ⟨htr_le, htr_lt⟩ := ftrunc_le (fdiv (i2f ww) (fdiv (i2f iw) (i2f ih)))
  set Q := fval (fdiv (i2f ww) (fdiv (i2f iw) (i2f ih))) with hsQ
  set W := fval (fmul (i2f wh) (fdiv (i2f iw) (i2f ih))) with hsW
  set X := ((ww * ih : ℕ) : ℚ) / (iw : ℚ) with hsX
  set Y := ((wh * iw : ℕ) : ℚ) / (ih : ℚ) with hsY
  have hiwq : (0 : ℚ) < (iw : ℚ) := by exact_mod_cast h1
  have hihq : (0 : ℚ) < (ih : ℚ) := by exact_mod_cast h2
  have hXiw : X * (iw : ℚ) = ((ww * ih : ℕ) : ℚ) :=
    div_mul_cancel₀ _ (ne_of_gt hiwq)
  have hYih : Y * (ih : ℚ) = ((wh * iw : ℕ) : ℚ) :=
    div_mul_cancel₀ _ (ne_of_gt hihq)
  have hU : Q * (1 - f32eps) ^ 2 ≤ X * (1 + f32eps) ^ 3 := by
    apply le_of_mul_le_mul_right _ hiwq
    calc Q * (1 - f32eps) ^ 2 * (iw : ℚ) = Q * iw * (1 - f32eps) ^ 2 := by ring
      _ ≤ ((ww * ih : ℕ) : ℚ) * (1 + f32eps) ^ 3 := by
          calc Q * iw * (1 - f32eps) ^ 2 ≤ ((ww : ℚ) * ih) * (1 + f32eps) ^ 3 := hQhi
            _ = ((ww * ih : ℕ) : ℚ) * (1 + f32eps) ^ 3 := by push_cast; ring
      _ = X * (1 + f32eps) ^ 3 * (iw : ℚ) := by rw [← hXiw]; ring
  have hW1 : W * (1 - f32eps) ≤ Y * (1 + f32eps) ^ 4 := by
    apply le_of_mul_le_mul_right _ hihq
    calc W * (1 - f32eps) * (ih : ℚ) = W * ih * (1 - f32eps) := by ring
      _ ≤ ((wh : ℚ) * iw) * (1 + f32eps) ^ 4 := hWhi
      _ = ((wh * iw : ℕ) : ℚ) * (1 + f32eps) ^ 4 := by push_cast; ring
      _ = Y * (1 + f32eps) ^ 4 * (ih : ℚ) := by rw [← hYih]; ring
  have hW2 : Y * (1 - f32eps) ^ 4 ≤ W * (1 + f32eps) := by
    apply le_of_mul_le_mul_right _ hihq
    calc Y * (1 - f32eps) ^ 4 * (ih : ℚ) = Y * (ih : ℚ) * (1 - f32eps) ^ 4 := by ring
      _ = ((wh * iw : ℕ) : ℚ) * (1 - f32eps) ^ 4 := by rw [hYih]
      _ = ((wh : ℚ) * iw) * (1 - f32eps) ^ 4 := by push_cast; ring
      _ ≤ W * ih * (1 + f32eps) := hWlo
      _ = W * (1 + f32eps) * (ih : ℚ) := by ring
  have hQwh : (wh : ℚ) + 1 ≤ Q := by
    have : ((wh + 1 : ℕ) : ℚ) ≤ ((ftrunc (fdiv (i2f ww) (fdiv (i2f iw) (i2f ih))) : ℕ) : ℚ) := by
      exact_mod_cast hcl
    push_cast at this
    linarith
  have hXwh : ((wh : ℚ) + 1) * (1 - f32eps) ^ 2 ≤ X * (1 + f32eps) ^ 3 := by
    calc ((wh : ℚ) + 1) * (1 - f32eps) ^ 2 ≤ Q * (1 - f32eps) ^ 2 := by
          apply mul_le_mul_of_nonneg_right hQwh
          positivity
      _ ≤ X * (1 + f32eps) ^ 3 := hU
  have hXY : X * Y = (ww : ℚ) * wh := by
    rw [hsX, hsY]
    push_cast
    field_simp
    ring
  have hY0 : (0 : ℚ) ≤ Y := by positivity
  have hX0 : (0 : ℚ) ≤ X := by positivity
  have hstep : Y * (((wh : ℚ) + 1) * (1 - f32eps) ^ 2) ≤ (ww : ℚ) * wh * (1 + f32eps) ^ 3 := by
    calc Y * (((wh : ℚ) + 1) * (1 - f32eps) ^ 2) ≤ Y * (X * (1 + f32eps) ^ 3) :=
          mul_le_mul_of_nonneg_left hXwh hY0
      _ = (X * Y) * (1 + f32eps) ^ 3 := by ring
      _ = (ww : ℚ) * wh * (1 + f32eps) ^ 3 := by rw [hXY]
  have hstep2 : (ww : ℚ) * wh * (1 + f32eps) ^ 3 <
      1048576 * (((wh : ℚ) + 1) * (1 + f32eps) ^ 3) := by
    have hwwb : (ww : ℚ) ≤ 1048576 := by exact_mod_cast h5
    have hwh0 : (0 : ℚ) ≤ (wh : ℚ) := by positivity
    have heps2 : (0 : ℚ) < 1 + f32eps := by rw [f32eps_eq]; norm_num
    have hh1 : (ww : ℚ) * wh ≤ 1048576 * wh :=
      mul_le_mul_of_nonneg_right hwwb hwh0
    have hh2 : (1048576 : ℚ) * wh < 1048576 * (wh + 1) := by linarith
    calc (ww : ℚ) * wh * (1 + f32eps) ^ 3 ≤ 1048576 * (wh : ℚ) * (1 + f32eps) ^ 3 := by
          apply mul_le_mul_of_nonneg_right hh1
          positivity
      _ < 1048576 * ((wh : ℚ) + 1) * (1 + f32eps) ^ 3 := by
          apply (mul_lt_mul_right (by positivity)).2
          exact hh2
      _ = 1048576 * (((wh : ℚ) + 1) * (1 + f32eps) ^ 3) := by ring
  have hYcan : Y * (1 - f32eps) ^ 2 < 1048576 * (1 + f32eps) ^ 3 := by
    have hwh1 : (0 : ℚ) < (wh : ℚ) + 1 := by positivity
    have hcomb : (Y * (1 - f32eps) ^ 2) * ((wh : ℚ) + 1) <
        (1048576 * (1 + f32eps) ^ 3) * ((wh : ℚ) + 1) := by
      calc (Y * (1 - f32eps) ^ 2) * ((wh : ℚ) + 1)
          = Y * (((wh : ℚ) + 1) * (1 - f32eps) ^ 2) := by ring
        _ ≤ (ww : ℚ) * wh * (1 + f32eps) ^ 3 := hstep
        _ < 1048576 * (((wh : ℚ) + 1) * (1 + f32eps) ^ 3) := hstep2
        _ = (1048576 * (1 + f32eps) ^ 3) * ((wh : ℚ) + 1) := by ring
    exact lt_of_mul_lt_mul_right hcomb (le_of_lt hwh1)
  have hY_le : Y ≤ 1048578 := Ycan_le hYcan
  have hW0 : (0 : ℚ) ≤ W := by
    obtain ⟨hA2, hAm2, hApos2⟩ := i2f_approx iw h1
    obtain ⟨hB2, hBm2, hBpos2⟩ := i2f_approx ih h2
    obtain ⟨hD2, hDm2, hDpos2⟩ := i2f_approx wh h2h
    obtain ⟨ha2, ham2, hapos2⟩ := fdiv_approx (i2f iw) (i2f ih) hAm2 hBm2
    exact le_of_lt (fmul_approx (i2f wh) (fdiv (i2f iw) (i2f ih)) hDm2 ham2).2.2
  exact trunc_floor_close _ Y (pm1_numeric2 hW1 hW2 hY_le hY0 hW0)

lemma range_numeric {Q X : ℚ} (hU : Q * (1 - f32eps) ^ 2 ≤ X * (1 + f32eps) ^ 3)
    (hX : X ≤ 1073741824) (hQ0 : 0 ≤ Q) : Q < 2147483648 := by
  rw [f32eps_eq] at hU
  ring_nf at hU
  linarith

lemma range_numeric2 {W Y : ℚ} (hW1 : W * (1 - f32eps) ≤ Y * (1 + f32eps) ^ 4)
    (hY : Y ≤ 1073741824) (hW0 : 0 ≤ W) : W < 2147483648 := by
  rw [f32eps_eq] at hW1
  ring_nf at hW1
  linarith

lemma renderH_range (iw ih ww wh : ℕ) (h1 : 1 ≤ iw) (h2 : 1 ≤ ih)
    (h3 : iw ≤ ww) (h4 : ih ≤ wh) (h5 : ww ≤ 32768) (h6 : wh ≤ 32768) :
    ftrunc (fdiv (i2f ww) (fdiv (i2f iw) (i2f ih))) < 2147483648 := by
  have h1w : 1 ≤ ww := le_trans h1 h3
  obtain ⟨hQlo, hQhi⟩ := fchain_bounds iw ih ww h1 h2 h1w
  obtain ⟨htr_le, htr_lt⟩ := ftrunc_le (fdiv (i2f ww) (fdiv (i2f iw) (i2f ih)))
  set Q := fval (fdiv (i2f ww) (fdiv (i2f iw) (i2f ih))) with hsQ
  set X := ((ww * ih : ℕ) : ℚ) / (iw : ℚ) with hsX
  have hiwq : (0 : ℚ) < (iw : ℚ) := by exact_mod_cast h1
  have hXiw : X * (iw : ℚ) = ((ww * ih : ℕ) : ℚ) :=
    div_mul_cancel₀ _ (ne_of_gt hiwq)
  have hU : Q * (1 - f32eps) ^ 2 ≤ X * (1 + f32eps) ^ 3 := by
    apply le_of_mul_le_mul_right _ hiwq
    calc Q * (1 - f32eps) ^ 2 * (iw : ℚ) = Q * iw * (1 - f32eps) ^ 2 := by ring
      _ ≤ ((ww * ih : ℕ) : ℚ) * (1 + f32eps) ^ 3 := by
          calc Q * iw * (1 - f32eps) ^ 2 ≤ ((ww : ℚ) * ih) * (1 + f32eps) ^ 3 := hQhi
            _ = ((ww * ih : ℕ) : ℚ) * (1 + f32eps) ^ 3 := by push_cast; ring
      _ = X * (1 + f32eps) ^ 3 * (iw : ℚ) := by rw [← hXiw]; ring
  have hQ0 : (0 : ℚ) ≤ Q := le_trans (by positivity) htr_le
  have hX0 : (0 : ℚ) ≤ X := by positivity
  have hXle : X ≤ 1073741824 := by
    have hx1 : X ≤ X * (iw : ℚ) := le_mul_of_one_le_right hX0 (by exact_mod_cast h1)
    have hnat : ww * ih ≤ 1073741824 :=
      le_trans (Nat.mul_le_mul h5 (le_trans h4 h6)) (by norm_num)
    have hx3 : ((ww * ih : ℕ) : ℚ) ≤ 1073741824 := by exact_mod_cast hnat
    linarith [hXiw]
  have hcast : ((ftrunc (fdiv (i2f ww) (fdiv (i2f iw) (i2f ih))) : ℕ) : ℚ) <
      2147483648 := lt_of_le_of_lt htr_le (range_numeric hU hXle hQ0)
  exact_mod_cast hcast

lemma renderW_range (iw ih ww wh : ℕ) (h1 : 1 ≤ iw) (h2 : 1 ≤ ih)
    (h3 : iw ≤ ww) (h4 : ih ≤ wh) (h5 : ww ≤ 32768) (h6 : wh ≤ 32768) :
    ftrunc (fmul (i2f wh) (fdiv (i2f iw) (i2f ih))) < 2147483648 := by
  have h2h : 1 ≤ wh := le_trans h2 h4
  obtain ⟨hWlo, hWhi⟩ := fchain2_bounds iw ih wh h1 h2 h2h
  obtain ⟨htr_le, htr_lt⟩ := ftrunc_le (fmul (i2f wh) (fdiv (i2f iw) (i2f ih)))
  set W := fval (fmul (i2f wh) (fdiv (i2f iw) (i2f ih))) with hsW
  set Y := ((wh * iw : ℕ) : ℚ) / (ih : ℚ) with hsY
  have hihq : (0 : ℚ) < (ih : ℚ) := by exact_mod_cast h2
  have hYih : Y * (ih : ℚ) = ((wh * iw : ℕ) : ℚ) :=
    div_mul_cancel₀ _ (ne_of_gt hihq)
  have hW1 : W * (1 - f32eps) ≤ Y * (1 + f32eps) ^ 4 := by
    apply le_of_mul_le_mul_right _ hihq
    calc W * (1 - f32eps) * (ih : ℚ) = W * ih * (1 - f32eps) := by ring
      _ ≤ ((wh : ℚ) * iw) * (1 + f32eps) ^ 4 := hWhi
      _ = ((wh * iw : ℕ) : ℚ) * (1 + f32eps) ^ 4 := by push_cast; ring
      _ = Y * (1 + f32eps) ^ 4 * (ih : ℚ) := by rw [← hYih]; ring
  have hW0 : (0 : ℚ) ≤ W := le_trans (by positivity) htr_le
  have hY0 : (0 : ℚ) ≤ Y := by positivity
  have hYle : Y ≤ 1073741824 := by
    have hy1 : Y ≤ Y * (ih : ℚ) := le_mul_of_one_le_right hY0 (by exact_mod_cast h2)
    have hnat : wh * iw ≤ 1073741824 :=
      le_trans (Nat.mul_le_mul h6 (le_trans h3 h5)) (by norm_num)
    have hy3 : ((wh * iw : ℕ) : ℚ) ≤ 1073741824 := by exact_mod_cast hnat
    linarith [hYih]
  have hcast : ((ftrunc (fmul (i2f wh) (fdiv (i2f iw) (i2f ih))) : ℕ) : ℚ) <
      2147483648 := lt_of_le_of_lt htr_le (range_numeric2 hW1 hYle hW0)
  exact_mod_cast hcast

/-- Counterexample to C1 as stated: at input 643x361 with target
1920x1080 (within the no-clamp branch), the code computes outH = 1077 —
the truncation of the single-precision quotient — while
round(targetW / (inputW/inputH)) = round(693120/643) = 1078. -/
theorem get_render_size_round_cex :
    get_render_size 643 361 1920 1080 = (1920, 1077) ∧
    round ((1920 : ℚ) / ((643 : ℚ) / 361)) = 1078 ∧ (1077 : ℤ) ≠ 1078 := by
  refine ⟨by decide, ?_, by decide⟩
  have harg : (1920 : ℚ) / ((643 : ℚ) / 361) = 693120 / 643 := by norm_num
  rw [harg, round_eq]
  have : ⌊(693120 : ℚ) / 643 + 1 / 2⌋ = 1078 := by
    rw [Int.floor_eq_iff]
    norm_num
  rw [this]

/-- The amended claim of C1: for every input size fitting inside the
target (dimensions positive, target at most 32768 per side — a domain on
which every value passed to a C `(int)` cast is proved below 2^31, so the
32-bit conversion is defined and the unbounded-floor model is faithful),
the policy sets outW = targetW and outH to the integer truncation (not
round) of the single-precision quotient targetW / (inputW/inputH), a
value always within one of the exact ⌊targetW*inputH/inputW⌋; when that
truncated height exceeds targetH, it clamps outH = targetH and sets outW
to the truncation of the single-precision product
targetH * (inputW/inputH) — again proved below 2^31 — within one of the
exact ⌊targetH*inputW/inputH⌋.  The spec's two example evaluations hold
unchanged. -/
theorem get_render_size_width_first_fit :
    (∀ iw ih ww wh : ℕ, 1 ≤ iw → 1 ≤ ih → iw ≤ ww → ih ≤ wh →
      ww ≤ 32768 → wh ≤ 32768 →
      ftrunc (fdiv (i2f ww) (fdiv (i2f iw) (i2f ih))) < 2147483648 ∧
      (ftrunc (fdiv (i2f ww) (fdiv (i2f iw) (i2f ih))) ≤ wh →
        get_render_size iw ih ww wh =
          (ww, ftrunc (fdiv (i2f ww) (fdiv (i2f iw) (i2f ih)))) ∧
        (((ftrunc (fdiv (i2f ww) (fdiv (i2f iw) (i2f ih))) : ℕ) : ℤ) -
            ⌊((ww * ih : ℕ) : ℚ) / iw⌋).natAbs ≤ 1) ∧
      (wh < ftrunc (fdiv (i2f ww) (fdiv (i2f iw) (i2f ih))) →
        ftrunc (fmul (i2f wh) (fdiv (i2f iw) (i2f ih))) < 2147483648 ∧
        get_render_size iw ih ww wh =
          (ftrunc (fmul (i2f wh) (fdiv (i2f iw) (i2f ih))), wh) ∧
        (((ftrunc (fmul (i2f wh) (fdiv (i2f iw) (i2f ih))) : ℕ) : ℤ) -
            ⌊((wh * iw : ℕ) : ℚ) / ih⌋).natAbs ≤ 1)) ∧
    get_render_size 1280 720 1920 1080 = (1920, 1080) ∧
    get_render_size 720 480 1920 1080 = (1620, 1080) := by
  refine ⟨?_, by decide, by decide⟩
  intro iw ih ww wh h1 h2 h3 h4 h5 h6
  have hguard1 : ¬(ww < iw ∨ wh < ih) := by omega
  refine ⟨renderH_range iw ih ww wh h1 h2 h3 h4 h5 h6, ?_, ?_⟩
  · intro hnc
    constructor
    · unfold get_render_size
      rw [if_neg hguard1]
      dsimp only
      rw [if_neg (by omega : ¬ wh < ftrunc (fdiv (i2f ww) (fdiv (i2f iw) (i2f ih))))]
    · exact renderH_pm1 iw ih ww wh h1 h2 h3 h4 (by omega) (by omega) hnc
  · intro hcl
    refine ⟨renderW_range iw ih ww wh h1 h2 h3 h4 h5 h6, ?_, ?_⟩
    · unfold get_render_size
      rw [if_neg hguard1]
      dsimp only
      rw [if_pos hcl]
    · exact renderW_pm1 iw ih ww wh h1 h2 h3 h4 (by omega) (by omega) hcl

/-- Witness for C1 (amended), at the spec's clamped example 720x480 into
1920x1080: both cast arguments are in 32-bit int range, the computed
pre-clamp height 1280 exceeds 1080, the result is (1620, 1080), and 1620
is within one of ⌊1080*720/480⌋. -/
theorem get_render_size_width_first_fit_witness :
    (1080 < ftrunc (fdiv (i2f 1920) (fdiv (i2f 720) (i2f 480)))) ∧
    ftrunc (fdiv (i2f 1920) (fdiv (i2f 720) (i2f 480))) < 2147483648 ∧
    ftrunc (fmul (i2f 1080) (fdiv (i2f 720) (i2f 480))) < 2147483648 ∧
    get_render_size 720 480 1920 1080 =
      (ftrunc (fmul (i2f 1080) (fdiv (i2f 720) (i2f 480))), 1080) ∧
    (((ftrunc (fmul (i2f 1080) (fdiv (i2f 720) (i2f 480))) : ℕ) : ℤ) -
        ⌊((1080 * 720 : ℕ) : ℚ) / 480⌋).natAbs ≤ 1 := by
  have h := get_render_size_width_first_fit.1 720 480 1920 1080 (by decide) (by decide)
    (by decide) (by decide) (by decide) (by decide)
  have hb := h.2.2 (by decide)
  exact ⟨by decide, h.1, hb.1, hb.2.1, hb.2.2⟩
